import Mathlib

/-!
Verification of the phone-checker core (models, cache, confidence scorer,
orchestrator) against its natural-language specification.

The Python source is shallowly embedded:
* floats become rationals,
* `datetime` values become rationals (seconds since an arbitrary epoch);
  `isoformat`/`fromisoformat` become the identity on those rationals,
* Python dicts become association lists over `String` keys, kept in
  insertion order (as CPython dicts are), with a no-duplicate-keys
  invariant maintained by the insert operation,
* `json.dumps` byte lengths are abstracted into two size functions carried
  by the cache context: `szIndent` for the indented serialization used
  when inserting (`json.dumps(data, indent=2)`) and `szPlain` for the
  compact serialization used when removing (`json.dumps(data)`),
* `async` methods become pure state-passing functions, with the current
  wall-clock time (`datetime.now()` / `time.time()`) passed explicitly,
* fallible operations (a raising constructor, a failing disk write)
  return `Option` or take an explicit success flag.
-/

/-- Values storable in a result's metadata map (bool, number or string). -/
inductive MetaValue where
  | b : Bool → MetaValue
  | q : ℚ → MetaValue
  | s : String → MetaValue
deriving DecidableEq, Repr

/-- Dict lookup on an association list (first binding wins). -/
def alLookup {β : Type} (k : String) : List (String × β) → Option β
  | [] => none
  | (k', v) :: rest => if k' = k then some v else alLookup k rest

/-- Dict membership test. -/
def alContains {β : Type} (k : String) (l : List (String × β)) : Bool :=
  (alLookup k l).isSome

/-- Dict update: replace in place if the key exists (CPython dicts keep the
original position), otherwise append at the end (insertion order). -/
def alInsert {β : Type} (k : String) (v : β) : List (String × β) → List (String × β)
  | [] => [(k, v)]
  | (k', v') :: rest => if k' = k then (k, v) :: rest else (k', v') :: alInsert k v rest

/-- Dict deletion (`del d[k]`): drop every binding of the key; on lists with
no duplicate keys this removes exactly the one binding. -/
def alErase {β : Type} (k : String) (l : List (String × β)) : List (String × β) :=
  l.filter (fun kv => kv.1 ≠ k)

/-- The no-duplicate-keys invariant of an embedded dict. -/
def keysNodup {β : Type} (l : List (String × β)) : Prop :=
  (l.map Prod.fst).Nodup

/-- `models.VerificationStatus`: status of probing one platform. -/
inductive VerificationStatus where
  | EXISTS
  | NOT_EXISTS
  | ERROR
  | TIMEOUT
  | RATE_LIMITED
  | UNKNOWN
deriving DecidableEq, Repr

/-- The string value of each enum member, as in `models.py`. -/
def VerificationStatus.value : VerificationStatus → String
  | .EXISTS => "exists"
  | .NOT_EXISTS => "not_exists"
  | .ERROR => "error"
  | .TIMEOUT => "timeout"
  | .RATE_LIMITED => "rate_limited"
  | .UNKNOWN => "unknown"

/-- `VerificationStatus(s)`: enum lookup by value; `none` models the
`ValueError` raised on an unrecognized string. -/
def VerificationStatus.ofValue (s : String) : Option VerificationStatus :=
  if s = "exists" then some .EXISTS
  else if s = "not_exists" then some .NOT_EXISTS
  else if s = "error" then some .ERROR
  else if s = "timeout" then some .TIMEOUT
  else if s = "rate_limited" then some .RATE_LIMITED
  else if s = "unknown" then some .UNKNOWN
  else none

/-- `models.PhoneCheckResult` (the Python field `exists` is a Lean keyword,
hence `exists_flag`). `last_seen` and `timestamp` are datetimes as ℚ. -/
structure PhoneCheckResult where
  platform : String
  status : VerificationStatus
  exists_flag : Bool := false
  error : Option String := none
  username : Option String := none
  last_seen : Option ℚ := none
  confidence_score : ℚ := 0
  metadata : List (String × MetaValue) := []
  timestamp : ℚ := 0
  response_time : ℚ := 0
deriving DecidableEq, Repr

/-- Constructing a `PhoneCheckResult`, including `__post_init__`: the flag
is forced to `true` for EXISTS and to `false` for NOT_EXISTS, ERROR and
TIMEOUT; for the remaining statuses the passed value is kept. -/
def mkPhoneCheckResult (platform : String) (status : VerificationStatus)
    (exists_flag : Bool := false) (error : Option String := none)
    (username : Option String := none) (last_seen : Option ℚ := none)
    (confidence_score : ℚ := 0) (metadata : List (String × MetaValue) := [])
    (timestamp : ℚ := 0) (response_time : ℚ := 0) : PhoneCheckResult :=
  { platform := platform
    status := status
    exists_flag :=
      match status with
      | .EXISTS => true
      | .NOT_EXISTS => false
      | .ERROR => false
      | .TIMEOUT => false
      | .RATE_LIMITED => exists_flag
      | .UNKNOWN => exists_flag
    error := error
    username := username
    last_seen := last_seen
    confidence_score := confidence_score
    metadata := metadata
    timestamp := timestamp
    response_time := response_time }

/-- `PhoneCheckResult.is_successful`. -/
def PhoneCheckResult.is_successful (r : PhoneCheckResult) : Bool :=
  decide (r.status = .EXISTS) || decide (r.status = .NOT_EXISTS)

/-- The dictionary produced by `PhoneCheckResult.to_dict` (field for field;
`isoformat` on datetimes is the identity in the embedding). -/
structure ResultDict where
  platform : String
  status : String
  exists_flag : Bool
  error : Option String
  username : Option String
  last_seen : Option ℚ
  confidence_score : ℚ
  metadata : List (String × MetaValue)
  timestamp : ℚ
  response_time : ℚ
deriving DecidableEq, Repr

/-- `PhoneCheckResult.to_dict`. -/
def PhoneCheckResult.to_dict (r : PhoneCheckResult) : ResultDict :=
  { platform := r.platform
    status := r.status.value
    exists_flag := r.exists_flag
    error := r.error
    username := r.username
    last_seen := r.last_seen
    confidence_score := r.confidence_score
    metadata := r.metadata
    timestamp := r.timestamp
    response_time := r.response_time }

/-- `PhoneCheckResult.from_dict`: decodes the status string (raising, i.e.
`none`, on an unknown value) and rebuilds the dataclass, which re-runs
`__post_init__`. -/
def PhoneCheckResult.from_dict (d : ResultDict) : Option PhoneCheckResult :=
  match VerificationStatus.ofValue d.status with
  | none => none
  | some st =>
      some (mkPhoneCheckResult d.platform st d.exists_flag d.error d.username
        d.last_seen d.confidence_score d.metadata d.timestamp d.response_time)

/-! ## Confidence scorer (`confidence.py`) -/

/-- `confidence.PlatformReliability` with its dataclass defaults. -/
structure PlatformReliability where
  base_score : ℚ := 4/5
  api_timeouts : ℕ := 0
  success_rate : ℚ := 1
  last_failure : Option ℚ := none
deriving DecidableEq, Repr

/-- The scorer's initial per-platform reliability table
(`ConfidenceScorer.__init__`). -/
def initial_platform_scores : List (String × PlatformReliability) :=
  [("whatsapp", { base_score := 9/10 }),
   ("telegram", { base_score := 17/20 }),
   ("instagram", { base_score := 3/4 }),
   ("snapchat", { base_score := 7/10 })]

/-- Weight of historical platform reliability (`self.weights`). -/
def weight_platform_reliability : ℚ := 2/5

/-- Weight of API response quality (`self.weights`). -/
def weight_api_response : ℚ := 3/10

/-- Weight of cache freshness (`self.weights`). -/
def weight_cache_age : ℚ := 3/10

/-- Python's `round` on our rationals: round half to even (banker's
rounding), nearest integer otherwise. -/
def pyRound (x : ℚ) : ℤ :=
  if Int.fract x = 1/2 then (if 2 ∣ ⌊x⌋ then ⌊x⌋ else ⌊x⌋ + 1) else round x

/-- `round(x, 2)`: round to two decimal places. -/
def pyRound2 (x : ℚ) : ℚ :=
  (pyRound (x * 100) : ℚ) / 100

/-- `ConfidenceScorer.calculate_api_response_score`. -/
def calculate_api_response_score (status_code : ℤ) (response_time : ℚ) : ℚ :=
  let status_score : ℚ :=
    if status_code = 200 then 1
    else if status_code = 201 ∨ status_code = 202 ∨ status_code = 203 then 9/10
    else if status_code = 429 ∨ status_code = 503 then 3/10
    else 1/2
  let time_score : ℚ := max 0 (min 1 ((5 - response_time) / (9/2)))
  status_score * (7/10) + time_score * (3/10)

/-- `ConfidenceScorer.calculate_cache_age_score`: linear decay of the
cache timestamp's age over 24 hours (`datetime.now()` is `now`). -/
def calculate_cache_age_score (now timestamp : ℚ) : ℚ :=
  let age := now - timestamp
  max 0 (1 - age / (24 * 3600))

/-- `ConfidenceScorer.update_platform_reliability`. An unknown platform
returns the table unchanged (the early `return`). The timeout test mirrors
Python's `response_time and response_time > 5.0`, where `None` and `0.0`
are falsy. -/
def update_platform_reliability (platform_scores : List (String × PlatformReliability))
    (platform : String) (success : Bool) (response_time : Option ℚ) (now : ℚ) :
    List (String × PlatformReliability) :=
  match alLookup platform platform_scores with
  | none => platform_scores
  | some reliability =>
    let alpha : ℚ := 1/100
    let r1 := { reliability with
      success_rate := reliability.success_rate * (1 - alpha)
        + (if success then (1 : ℚ) else 0) * alpha }
    let r2 :=
      if success then r1
      else
        { r1 with
          last_failure := some now
          api_timeouts :=
            match response_time with
            | some t => if t ≠ 0 ∧ 5 < t then r1.api_timeouts + 1 else r1.api_timeouts
            | none => r1.api_timeouts }
    alInsert platform r2 platform_scores

/-- `ConfidenceScorer.get_confidence_score`. The optional cache timestamp
and the clock are rationals; an unknown platform falls back to the default
`PlatformReliability`. -/
def get_confidence_score (platform_scores : List (String × PlatformReliability))
    (platform : String) (status_code : ℤ) (response_time : ℚ)
    (cache_timestamp : Option ℚ) (now : ℚ) : ℚ :=
  let reliability := (alLookup platform platform_scores).getD {}
  let platform_score :=
    reliability.base_score * reliability.success_rate
      * (9/10 : ℚ) ^ reliability.api_timeouts
  let api_score := calculate_api_response_score status_code response_time
  let cache_score :=
    match cache_timestamp with
    | some ts => calculate_cache_age_score now ts
    | none => 1
  pyRound2 (platform_score * weight_platform_reliability
    + api_score * weight_api_response + cache_score * weight_cache_age)

/-- Status-code score exactly as the claim words it: 200 gives 1.0,
201/202/203 give 0.9, 429/503 give 0.3, anything else 0.5. -/
def specStatusScoreC2 (c : ℤ) : ℚ :=
  if c = 200 then 1
  else if c = 201 ∨ c = 202 ∨ c = 203 then 9/10
  else if c = 429 ∨ c = 503 then 3/10
  else 1/2

/-- `clamp(x, lo, hi)` as the claim words it. -/
def specClamp (x lo hi : ℚ) : ℚ := max lo (min hi x)

/-- The claim's confidence formula:
`0.4*(base*success_rate*0.9^timeouts) + 0.3*(0.7*status + 0.3*clamp((5-t)/4.5,0,1)) + 0.3*cache_age_score`,
rounded to 2 decimals. -/
def specConfidenceC2 (base success_rate : ℚ) (timeout_count : ℕ) (c : ℤ)
    (t : ℚ) (cache_age_score : ℚ) : ℚ :=
  pyRound2 ((2/5) * (base * success_rate * (9/10 : ℚ) ^ timeout_count)
    + (3/10) * ((7/10) * specStatusScoreC2 c
        + (3/10) * specClamp ((5 - t) / (9/2)) 0 1)
    + (3/10) * cache_age_score)

/-! ## Cache (`cache.py`) -/

/-- One cache record (`cache_data` in `CacheManager.set`): write timestamp,
platform-to-serialized-result map, and the key parts. `get` mutates the
stored dict by attaching a `freshness_score` key, modeled as an extra
optional field. -/
structure CacheEntry where
  timestamp : ℚ
  results : List (String × ResultDict)
  phone : String
  country_code : String
  freshness_score : Option ℚ := none
deriving DecidableEq, Repr

/-- Cache configuration plus the serialized-size oracles: `szIndent e`
stands for `len(json.dumps(e, indent=2))` (used when inserting) and
`szPlain e` for `len(json.dumps(e))` (used when removing); the source uses
these two different serializations. -/
structure CacheCtx where
  expire_after : ℚ := 3600
  max_size_mb : ℚ := 100
  szIndent : CacheEntry → ℕ
  szPlain : CacheEntry → ℕ

/-- The mutable state of a `CacheManager`: in-memory index, backing store
contents, and the stats counters. -/
structure CacheState where
  cache_data : List (String × CacheEntry)
  disk : List (String × CacheEntry)
  hits : ℕ
  misses : ℕ
  size_bytes : ℤ
  entries_count : ℤ
  evictions : ℕ
deriving DecidableEq, Repr

/-- A freshly constructed cache manager: no entries, zeroed stats. -/
def emptyCacheState : CacheState :=
  { cache_data := [], disk := [], hits := 0, misses := 0,
    size_bytes := 0, entries_count := 0, evictions := 0 }

/-- `CacheManager._get_cache_key`. -/
def cacheKey (phone country_code : String) : String :=
  country_code ++ "_" ++ phone

/-- `CacheManager._calculate_freshness_score`. -/
def calculate_freshness_score (expire_after now timestamp : ℚ) : ℚ :=
  let age := now - timestamp
  max 0 (1 - age / expire_after)

/-- The byte budget `max_size_mb * 1024 * 1024`. -/
def maxBytes (ctx : CacheCtx) : ℚ := ctx.max_size_mb * 1024 * 1024

/-- The eviction target `max_size_mb * 1024 * 1024 * 0.8`. -/
def targetBytes (ctx : CacheCtx) : ℚ := ctx.max_size_mb * 1024 * 1024 * (4/5)

/-- `CacheManager._remove_entry`: if present, drop the entry from memory,
fix the counters using the compact serialized size, and delete the backing
file. -/
def CacheManager.remove_entry (ctx : CacheCtx) (cache_key : String)
    (s : CacheState) : CacheState :=
  if alContains cache_key s.cache_data then
    let entry_size : ℤ :=
      match alLookup cache_key s.cache_data with
      | some e => (ctx.szPlain e : ℤ)
      | none => 0
    { s with
      cache_data := alErase cache_key s.cache_data
      entries_count := s.entries_count - 1
      size_bytes := s.size_bytes - entry_size
      disk := alErase cache_key s.disk }
  else s

/-- `CacheManager.get`: miss on an absent key; on a present key compute the
freshness, evict and miss when it is ≤ 0, otherwise count a hit, attach the
freshness score to the stored entry and return it with the score. -/
def CacheManager.get (ctx : CacheCtx) (now : ℚ) (phone country_code : String)
    (s : CacheState) : Option (CacheEntry × ℚ) × CacheState :=
  let cache_key := cacheKey phone country_code
  match alLookup cache_key s.cache_data with
  | none => (none, { s with misses := s.misses + 1 })
  | some cached_data =>
      let freshness := calculate_freshness_score ctx.expire_after now cached_data.timestamp
      if freshness ≤ 0 then
        let s1 := CacheManager.remove_entry ctx cache_key s
        (none, { s1 with misses := s1.misses + 1 })
      else
        let updated := { cached_data with freshness_score := some freshness }
        (some (updated, freshness),
         { s with hits := s.hits + 1,
                  cache_data := alInsert cache_key updated s.cache_data })

/-- The body of the `for timestamp, cache_key in entries_by_age` loop of
`_evict_old_entries`: stop once the accounted size reaches the target,
otherwise remove the next-oldest entry and count one eviction. -/
def CacheManager.evictLoop (ctx : CacheCtx) : List (ℚ × String) → CacheState → CacheState
  | [], s => s
  | (_, cache_key) :: rest, s =>
      if (s.size_bytes : ℚ) ≤ targetBytes ctx then s
      else
        let s1 := CacheManager.remove_entry ctx cache_key s
        CacheManager.evictLoop ctx rest { s1 with evictions := s1.evictions + 1 }

/-- `entries_by_age`: (timestamp, key) pairs sorted ascending by timestamp
(Python's stable sort becomes a stable merge sort). -/
def entriesByAge (s : CacheState) : List (ℚ × String) :=
  (s.cache_data.map (fun kv => (kv.2.timestamp, kv.1))).mergeSort
    (fun a b => decide (a.1 ≤ b.1))

/-- `CacheManager._evict_old_entries`. -/
def CacheManager.evict_old_entries (ctx : CacheCtx) (s : CacheState) : CacheState :=
  if s.cache_data.isEmpty then s
  else CacheManager.evictLoop ctx (entriesByAge s) s

/-- The fresh record built at the top of `CacheManager.set`
(`datetime.now().isoformat()` is `now`). -/
def mkCacheEntry (now : ℚ) (phone country_code : String)
    (results : List (String × ResultDict)) : CacheEntry :=
  { timestamp := now, results := results, phone := phone,
    country_code := country_code }

/-- The size check of `CacheManager.set`: run eviction first whenever the
projected size would exceed the byte budget. -/
def CacheManager.setEvictPhase (ctx : CacheCtx) (now : ℚ) (phone country_code : String)
    (results : List (String × ResultDict)) (s : CacheState) : CacheState :=
  if (s.size_bytes : ℚ) + (ctx.szIndent (mkCacheEntry now phone country_code results) : ℚ)
      > maxBytes ctx
  then CacheManager.evict_old_entries ctx s
  else s

/-- The store phase of `CacheManager.set`: account the old entry's compact
size on update, bump the entry count on a fresh key, insert in memory, then
persist; `persistOk = false` models a failing disk write, after which the
in-memory insertion is rolled back (`del` plus counter adjustments) and the
error is logged rather than raised. -/
def CacheManager.setStorePhase (ctx : CacheCtx) (phone country_code : String)
    (entry : CacheEntry) (persistOk : Bool) (s : CacheState) : CacheState :=
  let cache_key := cacheKey phone country_code
  let data_size : ℤ := (ctx.szIndent entry : ℤ)
  let old_size : ℤ :=
    match alLookup cache_key s.cache_data with
    | some old_entry => (ctx.szPlain old_entry : ℤ)
    | none => 0
  let s1 := if alContains cache_key s.cache_data then s
            else { s with entries_count := s.entries_count + 1 }
  let s2 := { s1 with
    cache_data := alInsert cache_key entry s1.cache_data
    size_bytes := s1.size_bytes - old_size + data_size }
  if persistOk then { s2 with disk := alInsert cache_key entry s2.disk }
  else
    if alContains cache_key s2.cache_data then
      { s2 with
        cache_data := alErase cache_key s2.cache_data
        entries_count := s2.entries_count - 1
        size_bytes := s2.size_bytes - data_size }
    else s2

/-- `CacheManager.set`: build the record, possibly evict, then store and
persist (or roll back). -/
def CacheManager.set (ctx : CacheCtx) (now : ℚ) (phone country_code : String)
    (results : List (String × ResultDict)) (persistOk : Bool)
    (s : CacheState) : CacheState :=
  CacheManager.setStorePhase ctx phone country_code
    (mkCacheEntry now phone country_code results) persistOk
    (CacheManager.setEvictPhase ctx now phone country_code results s)

/-- `CacheManager.invalidate`. -/
def CacheManager.invalidate (ctx : CacheCtx) (phone country_code : String)
    (s : CacheState) : CacheState :=
  CacheManager.remove_entry ctx (cacheKey phone country_code) s

/-- The counter invariant: the accounted entry count equals the number of
in-memory entries. -/
def wellCounted (s : CacheState) : Prop :=
  s.entries_count = (s.cache_data.length : ℤ)

/-- Concrete fixture: a cache context whose byte budget is 1 byte
(`max_size_mb = 1/1048576`) and whose serialized sizes are all 1. -/
def ctxC5 : CacheCtx :=
  { expire_after := 3600, max_size_mb := 1/1048576,
    szIndent := fun _ => 1, szPlain := fun _ => 1 }

/-- Concrete fixture: a cache holding two entries written at times 0 and 1,
accounted at 2 bytes. -/
def stateC5 : CacheState :=
  { cache_data := [("33_611111111", mkCacheEntry 0 "611111111" "33" []),
                   ("33_622222222", mkCacheEntry 1 "622222222" "33" [])],
    disk := [("33_611111111", mkCacheEntry 0 "611111111" "33" []),
             ("33_622222222", mkCacheEntry 1 "622222222" "33" [])],
    hits := 0, misses := 0, size_bytes := 2, entries_count := 2, evictions := 0 }

/-! ## Orchestrator (`core.py`) -/

/-- What one platform adapter does for the number under test: return a
result, or raise (`err` carries `str(e)`); `PhoneChecker.checkers` may also
lack the platform entirely (modeled by the `Option`). -/
inductive AdapterOutcome where
  | ok : PhoneCheckResult → AdapterOutcome
  | err : String → AdapterOutcome
deriving DecidableEq, Repr

/-- The body of `check_with_semaphore` in `PhoneChecker._perform_checks`:
a missing checker or a raising checker is converted into an ERROR-status
result for that platform instead of propagating. -/
def checkOne (checkers : String → Option AdapterOutcome) (platform : String) :
    PhoneCheckResult :=
  match checkers platform with
  | none => mkPhoneCheckResult platform VerificationStatus.ERROR false
      (some ("Verificateur " ++ platform ++ " non disponible"))
  | some (AdapterOutcome.ok r) => r
  | some (AdapterOutcome.err e) => mkPhoneCheckResult platform VerificationStatus.ERROR false (some e)

/-- `PhoneChecker._perform_checks`: every platform of the to-check list
yields exactly one result (the gather slots are all `PhoneCheckResult`s
because `check_with_semaphore` catches exceptions, so the defensive
exception filter keeps them all). -/
def perform_checks (checkers : String → Option AdapterOutcome)
    (platforms : List String) : List PhoneCheckResult :=
  platforms.map (checkOne checkers)

/-- `models.PhoneCheckRequest` (the fields the orchestrator consults). -/
structure PhoneCheckRequest where
  phone : String
  country_code : String
  platforms : List String
  force_refresh : Bool := false
  max_concurrent_checks : ℕ := 4
deriving DecidableEq, Repr

/-- `models.PhoneCheckResponse`. -/
structure PhoneCheckResponse where
  request : PhoneCheckRequest
  results : List PhoneCheckResult
  total_time : ℚ := 0
  successful_checks : ℕ := 0
  failed_checks : ℕ := 0
deriving DecidableEq, Repr

/-- Building a `PhoneCheckResponse`, including its `__post_init__`:
`successful_checks` counts the successful results and `failed_checks` is
the rest. -/
def mkPhoneCheckResponse (request : PhoneCheckRequest)
    (results : List PhoneCheckResult) (total_time : ℚ) : PhoneCheckResponse :=
  { request := request
    results := results
    total_time := total_time
    successful_checks := results.countP PhoneCheckResult.is_successful
    failed_checks := results.length - results.countP PhoneCheckResult.is_successful }

/-- Tagging a cached result in `check_number`:
`result.metadata['cached'] = True` then
`result.metadata['freshness_score'] = freshness`. -/
def tagCached (fr : ℚ) (r : PhoneCheckResult) : PhoneCheckResult :=
  { r with metadata :=
      alInsert "freshness_score" (MetaValue.q fr) (alInsert "cached" (MetaValue.b true) r.metadata) }

/-- The cached-results loop of `check_number`: walk the entry's results
map; every platform that was requested contributes a cached result and is
removed from the to-check list. `none` models `from_dict` raising on a
corrupt stored status. -/
def consultFold (reqPlatforms : List String) (fr : ℚ) :
    List (String × ResultDict) → List PhoneCheckResult × List String →
    Option (List PhoneCheckResult × List String)
  | [], acc => some acc
  | (platform, result_data) :: rest, (acc, to_check) =>
      if platform ∈ reqPlatforms then
        match PhoneCheckResult.from_dict result_data with
        | none => none
        | some r =>
            consultFold reqPlatforms fr rest
              (acc ++ [tagCached fr r], to_check.erase platform)
      else consultFold reqPlatforms fr rest (acc, to_check)

/-- The cache-consultation phase of `check_number` (steps: conditional
`cache.get`, then the cached-results loop). Returns the cached results,
the remaining to-check list, and the cache state after the `get`. -/
def consultPhase (ctx : CacheCtx) (use_cache : Bool) (now : ℚ)
    (phone country_code : String) (platforms : List String)
    (force_refresh : Bool) (s : CacheState) :
    Option ((List PhoneCheckResult × List String) × CacheState) :=
  match (if use_cache && !force_refresh
         then CacheManager.get ctx now phone country_code s
         else (none, s)) with
  | (none, s1) => some (([], platforms), s1)
  | (some (entry, freshness), s1) =>
      match consultFold platforms freshness entry.results ([], platforms) with
      | none => none
      | some res => some (res, s1)

/-- `{r.platform: r.to_dict() for r in new_results}`. -/
def resultsDict (rs : List PhoneCheckResult) : List (String × ResultDict) :=
  rs.foldl (fun acc r => alInsert r.platform r.to_dict acc) []

/-- `PhoneChecker.check_number` after validation and cleaning: consult the
cache (unless disabled or force-refreshed), short-circuit when everything
was cached, otherwise dispatch the remaining platforms, write fresh results
back, and assemble the response. The third component of the returned triple
is the list of platforms dispatched to adapters; `none` models the call
raising (a corrupt cached status). Wall-clock total_time is modeled as 0. -/
def check_number (ctx : CacheCtx) (checkers : String → Option AdapterOutcome)
    (use_cache : Bool) (now : ℚ) (phone country_code : String)
    (platforms : List String) (force_refresh : Bool) (persistOk : Bool)
    (s : CacheState) :
    Option (PhoneCheckResponse × CacheState × List String) :=
  let request : PhoneCheckRequest :=
    { phone := phone, country_code := country_code, platforms := platforms,
      force_refresh := force_refresh }
  match consultPhase ctx use_cache now phone country_code platforms force_refresh s with
  | none => none
  | some ((cached_results, platforms_to_check), s1) =>
      if platforms_to_check.isEmpty && !cached_results.isEmpty then
        some (mkPhoneCheckResponse request cached_results 0, s1, [])
      else
        let new_results := perform_checks checkers platforms_to_check
        let all_results := cached_results ++ new_results
        let s2 :=
          if use_cache && !new_results.isEmpty then
            CacheManager.set ctx now phone country_code
              (resultsDict new_results) persistOk s1
          else s1
        some (mkPhoneCheckResponse request all_results 0, s2, platforms_to_check)

theorem pyRound_nonneg {y : ℚ} (hy : 0 ≤ y) : 0 ≤ pyRound y := by
  unfold pyRound
  have hfl : (0 : ℤ) ≤ ⌊y⌋ := Int.floor_nonneg.mpr hy
  split
  · split <;> omega
  · rw [round_eq]
    exact Int.floor_nonneg.mpr (by linarith)

theorem pyRound_le_hundred {y : ℚ} (hy : y ≤ 100) : pyRound y ≤ 100 := by
  unfold pyRound
  have hfl : ⌊y⌋ ≤ 100 := by
    have : ⌊y⌋ < 101 := Int.floor_lt.mpr (by norm_num; linarith)
    omega
  split
  · rename_i hfr
    split
    · exact hfl
    · have hne : ⌊y⌋ ≠ 100 := by
        intro heq
        rw [Int.fract] at hfr
        rw [heq] at hfr
        have : y = 100 + 1/2 := by push_cast at hfr; linarith
        linarith
      omega
  · rw [round_eq]
    have : ⌊y + 1/2⌋ < 101 := Int.floor_lt.mpr (by norm_num; linarith)
    omega

theorem pyRound2_unit {x : ℚ} (h0 : 0 ≤ x) (h1 : x ≤ 1) :
    0 ≤ pyRound2 x ∧ pyRound2 x ≤ 1 := by
  unfold pyRound2
  have ha : 0 ≤ pyRound (x * 100) := pyRound_nonneg (by linarith)
  have hb : pyRound (x * 100) ≤ 100 := pyRound_le_hundred (by linarith)
  constructor
  · positivity
  · rw [div_le_one (by norm_num)]
    exact_mod_cast hb

/-- The confidence score written as one closed rational expression (both
branches of the cache-timestamp match). -/
theorem get_confidence_score_eq (platform_scores : List (String × PlatformReliability))
    (platform : String) (status_code : ℤ) (response_time : ℚ)
    (cache_timestamp : Option ℚ) (now : ℚ) :
    get_confidence_score platform_scores platform status_code response_time
        cache_timestamp now
      = pyRound2 (((alLookup platform platform_scores).getD {}).base_score
            * ((alLookup platform platform_scores).getD {}).success_rate
            * (9/10 : ℚ) ^ ((alLookup platform platform_scores).getD {}).api_timeouts
            * weight_platform_reliability
          + calculate_api_response_score status_code response_time * weight_api_response
          + (cache_timestamp.elim 1 (fun ts => calculate_cache_age_score now ts))
            * weight_cache_age) := by
  cases cache_timestamp <;> rfl

/-- Claim C2: the confidence score lies in [0,1] for every platform, every
integer status code, every non-negative response time and every cache
timestamp not in the future (given a reliability record with base score and
success rate in [0,1], as the initial table and the update rule maintain),
and it equals the claimed weighted formula rounded to two decimals. -/
theorem C2_confidence_score_range_and_formula
    (platform_scores : List (String × PlatformReliability)) (platform : String)
    (status_code : ℤ) (response_time : ℚ) (cache_timestamp : Option ℚ) (now : ℚ)
    (hb0 : 0 ≤ ((alLookup platform platform_scores).getD {}).base_score)
    (hb1 : ((alLookup platform platform_scores).getD {}).base_score ≤ 1)
    (hs0 : 0 ≤ ((alLookup platform platform_scores).getD {}).success_rate)
    (hs1 : ((alLookup platform platform_scores).getD {}).success_rate ≤ 1)
    (ht : 0 ≤ response_time)
    (hts : ∀ ts ∈ cache_timestamp, ts ≤ now) :
    (0 ≤ get_confidence_score platform_scores platform status_code response_time
        cache_timestamp now
      ∧ get_confidence_score platform_scores platform status_code response_time
          cache_timestamp now ≤ 1)
    ∧ get_confidence_score platform_scores platform status_code response_time
          cache_timestamp now
        = specConfidenceC2 ((alLookup platform platform_scores).getD {}).base_score
            ((alLookup platform platform_scores).getD {}).success_rate
            ((alLookup platform platform_scores).getD {}).api_timeouts
            status_code response_time
            (cache_timestamp.elim 1 (fun ts => calculate_cache_age_score now ts)) := by
  rw [get_confidence_score_eq]
  set rel := (alLookup platform platform_scores).getD {} with hrel
  have hpow0 : (0 : ℚ) < (9/10 : ℚ) ^ rel.api_timeouts := pow_pos (by norm_num) _
  have hpow1 : (9/10 : ℚ) ^ rel.api_timeouts ≤ 1 :=
    pow_le_one₀ (by norm_num) (by norm_num)
  have hp0 : 0 ≤ rel.base_score * rel.success_rate * (9/10 : ℚ) ^ rel.api_timeouts :=
    mul_nonneg (mul_nonneg hb0 hs0) (le_of_lt hpow0)
  have hp1 : rel.base_score * rel.success_rate * (9/10 : ℚ) ^ rel.api_timeouts ≤ 1 :=
    mul_le_one₀ (mul_le_one₀ hb1 hs0 hs1) (le_of_lt hpow0) hpow1
  have htime0 : (0:ℚ) ≤ max 0 (min 1 ((5 - response_time) / (9/2))) := le_max_left _ _
  have htime1 : max 0 (min 1 ((5 - response_time) / (9/2))) ≤ 1 :=
    max_le (by norm_num) (min_le_left _ _)
  have hapi0 : 0 ≤ calculate_api_response_score status_code response_time := by
    unfold calculate_api_response_score
    split_ifs <;> nlinarith
  have hapi1 : calculate_api_response_score status_code response_time ≤ 1 := by
    unfold calculate_api_response_score
    split_ifs <;> nlinarith
  have hcache0 : 0 ≤ cache_timestamp.elim 1 (fun ts => calculate_cache_age_score now ts) := by
    cases cache_timestamp with
    | none => norm_num
    | some ts => exact le_max_left _ _
  have hcache1 : cache_timestamp.elim 1 (fun ts => calculate_cache_age_score now ts) ≤ 1 := by
    cases cache_timestamp with
    | none => norm_num
    | some ts =>
        have hage : 0 ≤ now - ts := by
          have := hts ts rfl
          linarith
        refine max_le (by norm_num) ?_
        have hd : 0 ≤ (now - ts) / (24 * 3600 : ℚ) := by positivity
        linarith
  have hbody0 : 0 ≤ rel.base_score * rel.success_rate * (9/10 : ℚ) ^ rel.api_timeouts
        * weight_platform_reliability
      + calculate_api_response_score status_code response_time * weight_api_response
      + cache_timestamp.elim 1 (fun ts => calculate_cache_age_score now ts)
        * weight_cache_age := by
    unfold weight_platform_reliability weight_api_response weight_cache_age
    nlinarith
  have hbody1 : rel.base_score * rel.success_rate * (9/10 : ℚ) ^ rel.api_timeouts
        * weight_platform_reliability
      + calculate_api_response_score status_code response_time * weight_api_response
      + cache_timestamp.elim 1 (fun ts => calculate_cache_age_score now ts)
        * weight_cache_age ≤ 1 := by
    unfold weight_platform_reliability weight_api_response weight_cache_age
    nlinarith
  refine ⟨pyRound2_unit hbody0 hbody1, ?_⟩
  simp only [specConfidenceC2, calculate_api_response_score, specStatusScoreC2,
    specClamp, weight_platform_reliability, weight_api_response, weight_cache_age]
  congr 1
  ring

/-- Witness for C2: the whatsapp platform at status 200, half-second
response, no cache timestamp, on the scorer's initial table. -/
theorem C2_confidence_score_range_and_formula_witness :
    (0 ≤ get_confidence_score initial_platform_scores "whatsapp" 200 (1/2) none 0
      ∧ get_confidence_score initial_platform_scores "whatsapp" 200 (1/2) none 0 ≤ 1)
    ∧ get_confidence_score initial_platform_scores "whatsapp" 200 (1/2) none 0
        = specConfidenceC2
            ((alLookup "whatsapp" initial_platform_scores).getD {}).base_score
            ((alLookup "whatsapp" initial_platform_scores).getD {}).success_rate
            ((alLookup "whatsapp" initial_platform_scores).getD {}).api_timeouts
            200 (1/2) ((none : Option ℚ).elim 1 (fun ts => calculate_cache_age_score 0 ts)) :=
  C2_confidence_score_range_and_formula initial_platform_scores "whatsapp" 200 (1/2) none 0
    (by norm_num [alLookup, initial_platform_scores])
    (by norm_num [alLookup, initial_platform_scores])
    (by norm_num [alLookup, initial_platform_scores])
    (by norm_num [alLookup, initial_platform_scores])
    (by norm_num) (by simp)

/-- Claim C9 counterexample: updating an unknown platform leaves the table
unchanged and creates no reliability record for it: the update is dropped,
not defaulted. -/
theorem C9_counterexample_unknown_platform_dropped :
    update_platform_reliability initial_platform_scores "facebook" false (some 10) 0
        = initial_platform_scores
    ∧ alLookup "facebook"
        (update_platform_reliability initial_platform_scores "facebook" false (some 10) 0)
        = none := by
  constructor <;> rfl

/-- Claim C9, amended: for a platform absent from the reliability table,
`update_platform_reliability` does not raise but silently ignores the
update: the table is returned unchanged and the platform still has no
record (the neutral default for unknown platforms exists only in
`get_confidence_score`). -/
theorem C9_unknown_platform_update_noop
    (platform_scores : List (String × PlatformReliability)) (platform : String)
    (success : Bool) (response_time : Option ℚ) (now : ℚ)
    (h : alLookup platform platform_scores = none) :
    update_platform_reliability platform_scores platform success response_time now
        = platform_scores
    ∧ alLookup platform
        (update_platform_reliability platform_scores platform success response_time now)
        = none := by
  unfold update_platform_reliability
  rw [h]
  exact ⟨rfl, h⟩

/-- Witness for C9: the amended theorem evaluated at an unknown platform on
the initial table. -/
theorem C9_unknown_platform_update_noop_witness :
    update_platform_reliability initial_platform_scores "signal" true none 5
        = initial_platform_scores
    ∧ alLookup "signal"
        (update_platform_reliability initial_platform_scores "signal" true none 5)
        = none :=
  C9_unknown_platform_update_noop initial_platform_scores "signal" true none 5 (by decide)

/-- Claim C7 counterexample: a result constructed with status RATE_LIMITED
and a passed-in flag `true` keeps `exists_flag = true`, although
`RATE_LIMITED ≠ EXISTS`; the flag does not equal `status == EXISTS` for
every status. -/
theorem C7_counterexample_rate_limited_exists :
    (mkPhoneCheckResult "whatsapp" VerificationStatus.RATE_LIMITED true).exists_flag = true
      ∧ VerificationStatus.RATE_LIMITED ≠ VerificationStatus.EXISTS :=
  ⟨rfl, by decide⟩

/-- Claim C7, amended: after construction the flag equals
`status == EXISTS` when the status is EXISTS, NOT_EXISTS, ERROR or
TIMEOUT; for RATE_LIMITED and UNKNOWN the passed-in flag is kept
unchanged. -/
theorem C7_exists_derived_from_status (platform : String)
    (status : VerificationStatus) (b : Bool) (error username : Option String)
    (last_seen : Option ℚ) (cs : ℚ) (md : List (String × MetaValue)) (ts rt : ℚ) :
    ((status = .EXISTS ∨ status = .NOT_EXISTS ∨ status = .ERROR ∨ status = .TIMEOUT) →
      (mkPhoneCheckResult platform status b error username last_seen cs md ts rt).exists_flag
        = decide (status = .EXISTS))
    ∧ ((status = .RATE_LIMITED ∨ status = .UNKNOWN) →
      (mkPhoneCheckResult platform status b error username last_seen cs md ts rt).exists_flag = b) := by
  cases status <;> simp [mkPhoneCheckResult]

/-- Witness for C7: evaluating the amended theorem at a TIMEOUT result
constructed with a (wrong) passed-in flag `true`. -/
theorem C7_exists_derived_from_status_witness :
    (mkPhoneCheckResult "whatsapp" VerificationStatus.TIMEOUT true none none none 0 [] 0 0).exists_flag
      = decide (VerificationStatus.TIMEOUT = VerificationStatus.EXISTS) :=
  (C7_exists_derived_from_status "whatsapp" VerificationStatus.TIMEOUT true
    none none none 0 [] 0 0).1 (by decide)

/-- Claim C10: for a result whose flag is consistent with its status
(`exists_flag` true iff status EXISTS, except RATE_LIMITED and UNKNOWN
which may carry either value), `from_dict (to_dict r)` reproduces `r`
field for field. -/
theorem C10_to_dict_from_dict_roundtrip (r : PhoneCheckResult)
    (h1 : r.status = .EXISTS → r.exists_flag = true)
    (h2 : r.status = .NOT_EXISTS ∨ r.status = .ERROR ∨ r.status = .TIMEOUT →
      r.exists_flag = false) :
    PhoneCheckResult.from_dict r.to_dict = some r := by
  obtain ⟨pf, st, ex, er, un, ls, cs, md, ts, rt⟩ := r
  cases st <;>
    simp_all [PhoneCheckResult.to_dict, PhoneCheckResult.from_dict,
      VerificationStatus.value, VerificationStatus.ofValue, mkPhoneCheckResult]

/-- Witness for C10: the round trip evaluated on a concrete EXISTS result. -/
theorem C10_to_dict_from_dict_roundtrip_witness :
    PhoneCheckResult.from_dict
        (PhoneCheckResult.to_dict
          { platform := "telegram", status := VerificationStatus.EXISTS,
            exists_flag := true, username := some "alice",
            confidence_score := 9/10, metadata := [("cached", MetaValue.b false)],
            timestamp := 100, response_time := 250 })
      = some { platform := "telegram", status := VerificationStatus.EXISTS,
               exists_flag := true, username := some "alice",
               confidence_score := 9/10, metadata := [("cached", MetaValue.b false)],
               timestamp := 100, response_time := 250 } :=
  C10_to_dict_from_dict_roundtrip _ (fun _ => rfl) (by decide)

/-! ## Association-list dictionary lemmas -/

theorem alLookup_alInsert_self {β : Type} (k : String) (v : β) (l : List (String × β)) :
    alLookup k (alInsert k v l) = some v := by
  induction l with
  | nil => simp [alInsert, alLookup]
  | cons kv rest ih =>
      by_cases h : kv.1 = k
      · simp [alInsert, alLookup, h]
      · simp [alInsert, alLookup, h, ih]

theorem alContains_iff_mem_keys {β : Type} (k : String) (l : List (String × β)) :
    alContains k l = true ↔ k ∈ l.map Prod.fst := by
  induction l with
  | nil => simp [alContains, alLookup]
  | cons kv rest ih =>
      by_cases h : kv.1 = k
      · simp [alContains, alLookup, h]
      · simp [alContains, alLookup, h, ← ih]
        intro hk
        exact absurd hk.symm h

theorem alLookup_alErase_self {β : Type} (k : String) (l : List (String × β)) :
    alLookup k (alErase k l) = none := by
  induction l with
  | nil => simp [alErase, alLookup]
  | cons kv rest ih =>
      by_cases h : kv.1 = k
      · simpa [alErase, List.filter, h] using ih
      · simpa [alErase, List.filter, h, alLookup] using ih

theorem alContains_alErase_self {β : Type} (k : String) (l : List (String × β)) :
    alContains k (alErase k l) = false := by
  simp [alContains, alLookup_alErase_self]

theorem alErase_cons_of_eq {β : Type} {k : String} {kv : String × β}
    {rest : List (String × β)} (h : kv.1 = k) :
    alErase k (kv :: rest) = alErase k rest := by
  simp [alErase, List.filter_cons, h]

theorem alErase_cons_of_ne {β : Type} {k : String} {kv : String × β}
    {rest : List (String × β)} (h : ¬ kv.1 = k) :
    alErase k (kv :: rest) = kv :: alErase k rest := by
  simp [alErase, List.filter_cons, h]

theorem alLookup_alErase_ne {β : Type} {k k' : String} (h : k' ≠ k) (l : List (String × β)) :
    alLookup k' (alErase k l) = alLookup k' l := by
  induction l with
  | nil => rfl
  | cons kv rest ih =>
      by_cases hk : kv.1 = k
      · have hne : ¬ kv.1 = k' := by
          intro he
          rw [← he] at h
          exact h hk
        rw [alErase_cons_of_eq hk, ih]
        simp [alLookup, hne]
      · rw [alErase_cons_of_ne hk]
        simp [alLookup, ih]

theorem alErase_of_not_contains {β : Type} {k : String} {l : List (String × β)}
    (h : alContains k l = false) : alErase k l = l := by
  induction l with
  | nil => simp [alErase]
  | cons kv rest ih =>
      by_cases hk : kv.1 = k
      · simp [alContains, alLookup, hk] at h
      · have hrest : alContains k rest = false := by
          simpa [alContains, alLookup, hk] using h
        simp [alErase, List.filter, hk] at ih ⊢
        exact ih hrest

theorem mem_of_mem_alErase {β : Type} {k : String} {x : String × β}
    {l : List (String × β)} (h : x ∈ alErase k l) : x ∈ l :=
  List.mem_of_mem_filter h

theorem fst_ne_of_mem_alErase {β : Type} {k : String} {x : String × β}
    {l : List (String × β)} (h : x ∈ alErase k l) : x.1 ≠ k := by
  have := List.of_mem_filter h
  simpa using this

theorem length_alErase_of_contains {β : Type} {k : String} {l : List (String × β)}
    (hnd : keysNodup l) (hc : alContains k l = true) :
    (alErase k l).length + 1 = l.length := by
  induction l with
  | nil => simp [alContains, alLookup] at hc
  | cons kv rest ih =>
      have hnd' : kv.1 ∉ rest.map Prod.fst ∧ keysNodup rest := by
        simpa [keysNodup] using hnd
      by_cases hk : kv.1 = k
      · have hrest : alContains k rest = false := by
          rcases Bool.eq_false_or_eq_true (alContains k rest) with h | h
          · exact absurd ((alContains_iff_mem_keys k rest).mp h) (hk ▸ hnd'.1)
          · exact h
        rw [alErase_cons_of_eq hk, alErase_of_not_contains hrest]
        simp
      · have hrest : alContains k rest = true := by
          simpa [alContains, alLookup, hk] using hc
        have := ih hnd'.2 hrest
        rw [alErase_cons_of_ne hk]
        simp at this ⊢
        omega

theorem keysNodup_alErase {β : Type} (k : String) {l : List (String × β)}
    (h : keysNodup l) : keysNodup (alErase k l) :=
  List.Nodup.sublist (List.Sublist.map Prod.fst (List.filter_sublist l)) h

theorem keys_alInsert {β : Type} (k : String) (v : β) (l : List (String × β)) :
    (alInsert k v l).map Prod.fst
      = if alContains k l then l.map Prod.fst else l.map Prod.fst ++ [k] := by
  induction l with
  | nil => simp [alInsert, alContains, alLookup]
  | cons kv rest ih =>
      by_cases hk : kv.1 = k
      · simp [alInsert, alContains, alLookup, hk]
      · simp [alInsert, alContains, alLookup, hk] at ih ⊢
        rw [ih]
        by_cases hc : alContains k rest = true <;> simp [alContains] at hc <;> simp [hc]

theorem keysNodup_alInsert {β : Type} (k : String) (v : β) {l : List (String × β)}
    (h : keysNodup l) : keysNodup (alInsert k v l) := by
  unfold keysNodup
  rw [keys_alInsert]
  split
  · exact h
  · rename_i hc
    have hk : k ∉ l.map Prod.fst := by
      intro hmem
      exact hc ((alContains_iff_mem_keys k l).mpr hmem)
    simp only [List.nodup_append, List.nodup_singleton, true_and]
    refine ⟨h, ?_⟩
    intro a ha hb
    simp at hb
    rw [hb] at ha
    exact hk ha

theorem length_alInsert {β : Type} (k : String) (v : β) (l : List (String × β)) :
    (alInsert k v l).length = if alContains k l then l.length else l.length + 1 := by
  have := keys_alInsert k v l
  have h1 : (alInsert k v l).length = ((alInsert k v l).map Prod.fst).length := by simp
  have h2 : l.length = (l.map Prod.fst).length := by simp
  rw [h1, this]
  split <;> simp [← h2]

theorem alContains_alInsert_self {β : Type} (k : String) (v : β) (l : List (String × β)) :
    alContains k (alInsert k v l) = true := by
  simp [alContains, alLookup_alInsert_self]

theorem alContains_of_lookup_some {β : Type} {k : String} {v : β} {l : List (String × β)}
    (h : alLookup k l = some v) : alContains k l = true := by
  simp [alContains, h]

/-! ## Cache lemmas and claims C3, C4, C6 -/

theorem setStorePhase_persist_cache_data (ctx : CacheCtx) (phone cc : String)
    (entry : CacheEntry) (s : CacheState) :
    (CacheManager.setStorePhase ctx phone cc entry true s).cache_data
      = alInsert (cacheKey phone cc) entry s.cache_data := by
  cases hc : alContains (cacheKey phone cc) s.cache_data <;>
    simp [CacheManager.setStorePhase, hc]

/-- Claim C3: a `get` immediately after a successfully persisted `set` of
the same key is a hit whose attached freshness score is in (0, 1] and whose
results map is exactly what was stored. -/
theorem C3_cache_get_after_set (ctx : CacheCtx) (now : ℚ) (phone cc : String)
    (results : List (String × ResultDict)) (s : CacheState)
    (hexp : 0 < ctx.expire_after) :
    ∃ e fr,
      (CacheManager.get ctx now phone cc (CacheManager.set ctx now phone cc results true s)).1
        = some (e, fr)
      ∧ 0 < fr ∧ fr ≤ 1 ∧ e.results = results := by
  have hl : alLookup (cacheKey phone cc)
      (CacheManager.set ctx now phone cc results true s).cache_data
      = some (mkCacheEntry now phone cc results) := by
    unfold CacheManager.set
    rw [setStorePhase_persist_cache_data]
    exact alLookup_alInsert_self _ _ _
  have hfr : calculate_freshness_score ctx.expire_after now
      (mkCacheEntry now phone cc results).timestamp = 1 := by
    simp [calculate_freshness_score, mkCacheEntry]
  refine ⟨{ mkCacheEntry now phone cc results with freshness_score := some 1 }, 1,
    ?_, one_pos, le_refl 1, rfl⟩
  simp only [CacheManager.get]
  rw [hl]
  simp [hfr]
  norm_num

/-- Witness for C3: a concrete set-then-get round trip on an empty cache. -/
theorem C3_cache_get_after_set_witness :
    ∃ e fr,
      (CacheManager.get { szIndent := fun _ => 10, szPlain := fun _ => 10 } 5 "612345678" "33"
          (CacheManager.set { szIndent := fun _ => 10, szPlain := fun _ => 10 } 5 "612345678" "33"
            [("whatsapp", PhoneCheckResult.to_dict (mkPhoneCheckResult "whatsapp" VerificationStatus.EXISTS))]
            true emptyCacheState)).1
        = some (e, fr)
      ∧ 0 < fr ∧ fr ≤ 1
      ∧ e.results
          = [("whatsapp", PhoneCheckResult.to_dict (mkPhoneCheckResult "whatsapp" VerificationStatus.EXISTS))] :=
  C3_cache_get_after_set { szIndent := fun _ => 10, szPlain := fun _ => 10 } 5 "612345678" "33"
    [("whatsapp", PhoneCheckResult.to_dict (mkPhoneCheckResult "whatsapp" VerificationStatus.EXISTS))]
    emptyCacheState (by norm_num)

/-- A `get` on an absent key misses and only bumps the miss counter. -/
theorem get_of_lookup_none (ctx : CacheCtx) (now : ℚ) (phone cc : String)
    (s : CacheState) (h : alLookup (cacheKey phone cc) s.cache_data = none) :
    CacheManager.get ctx now phone cc s = (none, { s with misses := s.misses + 1 }) := by
  simp only [CacheManager.get]
  rw [h]

/-- Claim C4: once an entry's age reaches `expire_after`, `get` misses,
removes the entry from memory and from the backing store, and a second
`get` on the same key also misses (without error), counting a second miss. -/
theorem C4_cache_expiry_eviction_idempotent (ctx : CacheCtx) (now now2 : ℚ)
    (phone cc : String) (s : CacheState) (e : CacheEntry)
    (hexp : 0 < ctx.expire_after)
    (hl : alLookup (cacheKey phone cc) s.cache_data = some e)
    (hage : ctx.expire_after ≤ now - e.timestamp) :
    (CacheManager.get ctx now phone cc s).1 = none
    ∧ (CacheManager.get ctx now phone cc s).2.misses = s.misses + 1
    ∧ alContains (cacheKey phone cc) (CacheManager.get ctx now phone cc s).2.cache_data = false
    ∧ alContains (cacheKey phone cc) (CacheManager.get ctx now phone cc s).2.disk = false
    ∧ (CacheManager.get ctx now2 phone cc (CacheManager.get ctx now phone cc s).2).1 = none
    ∧ (CacheManager.get ctx now2 phone cc (CacheManager.get ctx now phone cc s).2).2.misses
        = s.misses + 2 := by
  have hfr : calculate_freshness_score ctx.expire_after now e.timestamp ≤ 0 := by
    unfold calculate_freshness_score
    have h1 : (1:ℚ) ≤ (now - e.timestamp) / ctx.expire_after :=
      (one_le_div hexp).mpr hage
    exact max_le le_rfl (by linarith)
  have hcont : alContains (cacheKey phone cc) s.cache_data = true :=
    alContains_of_lookup_some hl
  have h2data : (CacheManager.get ctx now phone cc s).2.cache_data
      = alErase (cacheKey phone cc) s.cache_data := by
    simp only [CacheManager.get]
    rw [hl]
    simp [hfr, CacheManager.remove_entry, hcont]
  have h2disk : (CacheManager.get ctx now phone cc s).2.disk
      = alErase (cacheKey phone cc) s.disk := by
    simp only [CacheManager.get]
    rw [hl]
    simp [hfr, CacheManager.remove_entry, hcont]
  have h2miss : (CacheManager.get ctx now phone cc s).2.misses = s.misses + 1 := by
    simp only [CacheManager.get]
    rw [hl]
    simp [hfr, CacheManager.remove_entry, hcont]
  have hnone : alLookup (cacheKey phone cc) (CacheManager.get ctx now phone cc s).2.cache_data
      = none := by
    rw [h2data]
    exact alLookup_alErase_self _ _
  refine ⟨?_, h2miss, ?_, ?_, ?_, ?_⟩
  · simp only [CacheManager.get]
    rw [hl]
    simp [hfr]
  · rw [h2data]
    exact alContains_alErase_self _ _
  · rw [h2disk]
    exact alContains_alErase_self _ _
  · rw [get_of_lookup_none _ _ _ _ _ hnone]
  · rw [get_of_lookup_none _ _ _ _ _ hnone]
    simp [h2miss]

/-- Witness for C4: a one-entry cache whose entry is 2 seconds old with a
1-second TTL. -/
theorem C4_cache_expiry_eviction_idempotent_witness :
    (CacheManager.get { expire_after := 1, max_size_mb := 1, szIndent := fun _ => 1, szPlain := fun _ => 1 }
        2 "612345678" "33"
        { cache_data := [(cacheKey "612345678" "33", mkCacheEntry 0 "612345678" "33" [])],
          disk := [(cacheKey "612345678" "33", mkCacheEntry 0 "612345678" "33" [])],
          hits := 0, misses := 0, size_bytes := 1, entries_count := 1, evictions := 0 }).1 = none
    ∧ (CacheManager.get { expire_after := 1, max_size_mb := 1, szIndent := fun _ => 1, szPlain := fun _ => 1 }
        2 "612345678" "33"
        { cache_data := [(cacheKey "612345678" "33", mkCacheEntry 0 "612345678" "33" [])],
          disk := [(cacheKey "612345678" "33", mkCacheEntry 0 "612345678" "33" [])],
          hits := 0, misses := 0, size_bytes := 1, entries_count := 1, evictions := 0 }).2.misses = 0 + 1
    ∧ alContains (cacheKey "612345678" "33")
        (CacheManager.get { expire_after := 1, max_size_mb := 1, szIndent := fun _ => 1, szPlain := fun _ => 1 }
          2 "612345678" "33"
          { cache_data := [(cacheKey "612345678" "33", mkCacheEntry 0 "612345678" "33" [])],
            disk := [(cacheKey "612345678" "33", mkCacheEntry 0 "612345678" "33" [])],
            hits := 0, misses := 0, size_bytes := 1, entries_count := 1, evictions := 0 }).2.cache_data = false
    ∧ alContains (cacheKey "612345678" "33")
        (CacheManager.get { expire_after := 1, max_size_mb := 1, szIndent := fun _ => 1, szPlain := fun _ => 1 }
          2 "612345678" "33"
          { cache_data := [(cacheKey "612345678" "33", mkCacheEntry 0 "612345678" "33" [])],
            disk := [(cacheKey "612345678" "33", mkCacheEntry 0 "612345678" "33" [])],
            hits := 0, misses := 0, size_bytes := 1, entries_count := 1, evictions := 0 }).2.disk = false
    ∧ (CacheManager.get { expire_after := 1, max_size_mb := 1, szIndent := fun _ => 1, szPlain := fun _ => 1 }
        3 "612345678" "33"
        (CacheManager.get { expire_after := 1, max_size_mb := 1, szIndent := fun _ => 1, szPlain := fun _ => 1 }
          2 "612345678" "33"
          { cache_data := [(cacheKey "612345678" "33", mkCacheEntry 0 "612345678" "33" [])],
            disk := [(cacheKey "612345678" "33", mkCacheEntry 0 "612345678" "33" [])],
            hits := 0, misses := 0, size_bytes := 1, entries_count := 1, evictions := 0 }).2).1 = none
    ∧ (CacheManager.get { expire_after := 1, max_size_mb := 1, szIndent := fun _ => 1, szPlain := fun _ => 1 }
        3 "612345678" "33"
        (CacheManager.get { expire_after := 1, max_size_mb := 1, szIndent := fun _ => 1, szPlain := fun _ => 1 }
          2 "612345678" "33"
          { cache_data := [(cacheKey "612345678" "33", mkCacheEntry 0 "612345678" "33" [])],
            disk := [(cacheKey "612345678" "33", mkCacheEntry 0 "612345678" "33" [])],
            hits := 0, misses := 0, size_bytes := 1, entries_count := 1, evictions := 0 }).2).2.misses
        = 0 + 2 :=
  C4_cache_expiry_eviction_idempotent
    { expire_after := 1, max_size_mb := 1, szIndent := fun _ => 1, szPlain := fun _ => 1 }
    2 3 "612345678" "33"
    { cache_data := [(cacheKey "612345678" "33", mkCacheEntry 0 "612345678" "33" [])],
      disk := [(cacheKey "612345678" "33", mkCacheEntry 0 "612345678" "33" [])],
      hits := 0, misses := 0, size_bytes := 1, entries_count := 1, evictions := 0 }
    (mkCacheEntry 0 "612345678" "33" [])
    (by norm_num) (by simp [alLookup]) (by norm_num [mkCacheEntry])

/-! ## Claim C6: rollback on persistence failure -/

theorem keysNodup_remove_entry (ctx : CacheCtx) (k : String) (s : CacheState)
    (h : keysNodup s.cache_data) :
    keysNodup (CacheManager.remove_entry ctx k s).cache_data := by
  cases hc : alContains k s.cache_data
  · simpa [CacheManager.remove_entry, hc] using h
  · simpa [CacheManager.remove_entry, hc] using keysNodup_alErase k h

theorem wellCounted_remove_entry (ctx : CacheCtx) (k : String) (s : CacheState)
    (hnd : keysNodup s.cache_data) (h : wellCounted s) :
    wellCounted (CacheManager.remove_entry ctx k s) := by
  cases hc : alContains k s.cache_data
  · simpa [CacheManager.remove_entry, hc] using h
  · have hlen := length_alErase_of_contains hnd hc
    unfold wellCounted at h ⊢
    simp [CacheManager.remove_entry, hc]
    omega

theorem evictLoop_preserves (ctx : CacheCtx) (ks : List (ℚ × String)) :
    ∀ s : CacheState, keysNodup s.cache_data → wellCounted s →
    keysNodup (CacheManager.evictLoop ctx ks s).cache_data
      ∧ wellCounted (CacheManager.evictLoop ctx ks s) := by
  induction ks with
  | nil => exact fun s h1 h2 => ⟨h1, h2⟩
  | cons tk rest ih =>
      intro s h1 h2
      obtain ⟨t, k⟩ := tk
      simp only [CacheManager.evictLoop]
      split
      · exact ⟨h1, h2⟩
      · apply ih
        · simpa using keysNodup_remove_entry ctx k s h1
        · simpa [wellCounted] using wellCounted_remove_entry ctx k s h1 h2

theorem evict_old_entries_preserves (ctx : CacheCtx) (s : CacheState)
    (h1 : keysNodup s.cache_data) (h2 : wellCounted s) :
    keysNodup (CacheManager.evict_old_entries ctx s).cache_data
      ∧ wellCounted (CacheManager.evict_old_entries ctx s) := by
  unfold CacheManager.evict_old_entries
  split
  · exact ⟨h1, h2⟩
  · exact evictLoop_preserves ctx (entriesByAge s) s h1 h2

theorem setEvictPhase_preserves (ctx : CacheCtx) (now : ℚ) (phone cc : String)
    (results : List (String × ResultDict)) (s : CacheState)
    (h1 : keysNodup s.cache_data) (h2 : wellCounted s) :
    keysNodup (CacheManager.setEvictPhase ctx now phone cc results s).cache_data
      ∧ wellCounted (CacheManager.setEvictPhase ctx now phone cc results s) := by
  unfold CacheManager.setEvictPhase
  split
  · exact evict_old_entries_preserves ctx s h1 h2
  · exact ⟨h1, h2⟩

theorem setStorePhase_fail_spec (ctx : CacheCtx) (phone cc : String)
    (entry : CacheEntry) (s1 : CacheState) :
    (CacheManager.setStorePhase ctx phone cc entry false s1).cache_data
        = alErase (cacheKey phone cc) (alInsert (cacheKey phone cc) entry s1.cache_data)
    ∧ (CacheManager.setStorePhase ctx phone cc entry false s1).entries_count
        = (if alContains (cacheKey phone cc) s1.cache_data
           then s1.entries_count else s1.entries_count + 1) - 1
    ∧ (CacheManager.setStorePhase ctx phone cc entry false s1).size_bytes
        = s1.size_bytes
          - (match alLookup (cacheKey phone cc) s1.cache_data with
             | some old => (ctx.szPlain old : ℤ)
             | none => 0) := by
  cases hc : alContains (cacheKey phone cc) s1.cache_data <;>
    refine ⟨?_, ?_, ?_⟩ <;>
    simp [CacheManager.setStorePhase, hc, alContains_alInsert_self] <;>
    omega

/-- Claim C6, amended: when persisting a `set` fails, the in-memory
insertion is rolled back (the key is absent from memory afterwards and the
error is reported, not raised), and the entry-count accounting still
matches the in-memory state; the byte accounting, however, ends at the
pre-insertion figure minus the old entry's compact serialized size, so it
is restored exactly only when the key was previously absent — for a
pre-existing key it drifts by the difference between the old entry's
indented and compact serialized sizes. -/
theorem C6_set_persist_failure_rollback (ctx : CacheCtx) (now : ℚ) (phone cc : String)
    (results : List (String × ResultDict)) (s : CacheState) :
    alContains (cacheKey phone cc)
        (CacheManager.set ctx now phone cc results false s).cache_data = false
    ∧ (keysNodup s.cache_data → wellCounted s →
        wellCounted (CacheManager.set ctx now phone cc results false s))
    ∧ (CacheManager.set ctx now phone cc results false s).size_bytes
        = (CacheManager.setEvictPhase ctx now phone cc results s).size_bytes
          - (match alLookup (cacheKey phone cc)
                (CacheManager.setEvictPhase ctx now phone cc results s).cache_data with
             | some old => (ctx.szPlain old : ℤ)
             | none => 0) := by
  obtain ⟨hd, hcnt, hsz⟩ := setStorePhase_fail_spec ctx phone cc
    (mkCacheEntry now phone cc results)
    (CacheManager.setEvictPhase ctx now phone cc results s)
  refine ⟨?_, ?_, ?_⟩
  · show alContains (cacheKey phone cc)
      (CacheManager.setStorePhase ctx phone cc (mkCacheEntry now phone cc results) false
        (CacheManager.setEvictPhase ctx now phone cc results s)).cache_data = false
    rw [hd]
    exact alContains_alErase_self _ _
  · intro hnd hwc
    obtain ⟨hnd1, hwc1⟩ := setEvictPhase_preserves ctx now phone cc results s hnd hwc
    show wellCounted (CacheManager.setStorePhase ctx phone cc
      (mkCacheEntry now phone cc results) false
      (CacheManager.setEvictPhase ctx now phone cc results s))
    unfold wellCounted at hwc1 ⊢
    rw [hcnt, hd]
    have hins := length_alInsert (cacheKey phone cc) (mkCacheEntry now phone cc results)
      (CacheManager.setEvictPhase ctx now phone cc results s).cache_data
    have hers := length_alErase_of_contains
      (keysNodup_alInsert (cacheKey phone cc) (mkCacheEntry now phone cc results) hnd1)
      (alContains_alInsert_self (cacheKey phone cc) (mkCacheEntry now phone cc results)
        (CacheManager.setEvictPhase ctx now phone cc results s).cache_data)
    cases hc : alContains (cacheKey phone cc)
        (CacheManager.setEvictPhase ctx now phone cc results s).cache_data <;>
      rw [hc] at hins <;> simp at hins ⊢ <;> omega
  · exact hsz

/-- Claim C6 counterexample: with indented insertion size 10 and compact
removal size 4 (the source serializes with `indent=2` when inserting but
without when removing), a failed re-`set` of an existing key rolls back to
an empty in-memory index while the byte accounting reads 6, so the size
accounting does not match the resulting in-memory state. -/
theorem C6_counterexample_size_accounting_drift :
    (CacheManager.set
        { expire_after := 3600, max_size_mb := 100,
          szIndent := fun _ => 10, szPlain := fun _ => 4 }
        1 "612345678" "33" [] false
        { cache_data := [(cacheKey "612345678" "33", mkCacheEntry 0 "612345678" "33" [])],
          disk := [(cacheKey "612345678" "33", mkCacheEntry 0 "612345678" "33" [])],
          hits := 0, misses := 0, size_bytes := 10, entries_count := 1,
          evictions := 0 }).cache_data = []
    ∧ (CacheManager.set
        { expire_after := 3600, max_size_mb := 100,
          szIndent := fun _ => 10, szPlain := fun _ => 4 }
        1 "612345678" "33" [] false
        { cache_data := [(cacheKey "612345678" "33", mkCacheEntry 0 "612345678" "33" [])],
          disk := [(cacheKey "612345678" "33", mkCacheEntry 0 "612345678" "33" [])],
          hits := 0, misses := 0, size_bytes := 10, entries_count := 1,
          evictions := 0 }).size_bytes = 6 := by
  constructor <;>
    norm_num [CacheManager.set, CacheManager.setEvictPhase, CacheManager.setStorePhase,
      CacheManager.evict_old_entries, mkCacheEntry, maxBytes, alContains, alLookup,
      alInsert, alErase, List.filter]

/-- Witness for C6: the amended rollback theorem evaluated on the concrete
one-entry cache with a failing disk write. -/
theorem C6_set_persist_failure_rollback_witness :
    alContains (cacheKey "612345678" "33")
        (CacheManager.set
          { expire_after := 3600, max_size_mb := 100,
            szIndent := fun _ => 10, szPlain := fun _ => 4 }
          1 "612345678" "33" [] false
          { cache_data := [(cacheKey "612345678" "33", mkCacheEntry 0 "612345678" "33" [])],
            disk := [(cacheKey "612345678" "33", mkCacheEntry 0 "612345678" "33" [])],
            hits := 0, misses := 0, size_bytes := 10, entries_count := 1,
            evictions := 0 }).cache_data = false
    ∧ wellCounted (CacheManager.set
          { expire_after := 3600, max_size_mb := 100,
            szIndent := fun _ => 10, szPlain := fun _ => 4 }
          1 "612345678" "33" [] false
          { cache_data := [(cacheKey "612345678" "33", mkCacheEntry 0 "612345678" "33" [])],
            disk := [(cacheKey "612345678" "33", mkCacheEntry 0 "612345678" "33" [])],
            hits := 0, misses := 0, size_bytes := 10, entries_count := 1,
            evictions := 0 }) :=
  ⟨(C6_set_persist_failure_rollback
      { expire_after := 3600, max_size_mb := 100,
        szIndent := fun _ => 10, szPlain := fun _ => 4 }
      1 "612345678" "33" []
      { cache_data := [(cacheKey "612345678" "33", mkCacheEntry 0 "612345678" "33" [])],
        disk := [(cacheKey "612345678" "33", mkCacheEntry 0 "612345678" "33" [])],
        hits := 0, misses := 0, size_bytes := 10, entries_count := 1,
        evictions := 0 }).1,
   (C6_set_persist_failure_rollback
      { expire_after := 3600, max_size_mb := 100,
        szIndent := fun _ => 10, szPlain := fun _ => 4 }
      1 "612345678" "33" []
      { cache_data := [(cacheKey "612345678" "33", mkCacheEntry 0 "612345678" "33" [])],
        disk := [(cacheKey "612345678" "33", mkCacheEntry 0 "612345678" "33" [])],
        hits := 0, misses := 0, size_bytes := 10, entries_count := 1,
        evictions := 0 }).2.1
     (by simp [keysNodup, cacheKey]) (by simp [wellCounted])⟩

/-! ## Claim C5: eviction before insertion, oldest first -/

theorem alContains_of_mem {β : Type} {kv : String × β} {l : List (String × β)}
    (h : kv ∈ l) : alContains kv.1 l = true :=
  (alContains_iff_mem_keys _ _).mpr (List.mem_map_of_mem Prod.fst h)

theorem remove_entry_cache_data_of_contains (ctx : CacheCtx) (k : String)
    (s : CacheState) (hc : alContains k s.cache_data = true) :
    (CacheManager.remove_entry ctx k s).cache_data = alErase k s.cache_data := by
  simp [CacheManager.remove_entry, hc]

theorem remove_entry_evictions (ctx : CacheCtx) (k : String) (s : CacheState) :
    (CacheManager.remove_entry ctx k s).evictions = s.evictions := by
  cases hc : alContains k s.cache_data <;> simp [CacheManager.remove_entry, hc]

theorem evictLoop_spec (ctx : CacheCtx) :
    ∀ (ks : List (ℚ × String)) (s : CacheState),
    (ks.map Prod.snd).Nodup →
    (∀ tk ∈ ks, alContains tk.2 s.cache_data = true) →
    keysNodup s.cache_data →
    (((CacheManager.evictLoop ctx ks s).size_bytes : ℚ) ≤ targetBytes ctx
       ∨ (CacheManager.evictLoop ctx ks s).cache_data.length + ks.length
           = s.cache_data.length)
    ∧ (CacheManager.evictLoop ctx ks s).cache_data.length ≤ s.cache_data.length
    ∧ (CacheManager.evictLoop ctx ks s).evictions
        = s.evictions
          + (s.cache_data.length - (CacheManager.evictLoop ctx ks s).cache_data.length) := by
  intro ks
  induction ks with
  | nil =>
      intro s _ _ _
      refine ⟨Or.inr ?_, le_refl _, ?_⟩ <;> simp [CacheManager.evictLoop]
  | cons tk rest ih =>
      intro s hnd hmem hknd
      obtain ⟨t, k⟩ := tk
      simp only [CacheManager.evictLoop]
      split
      · exact ⟨Or.inl (by assumption), le_refl _, by omega⟩
      · have hck : alContains k s.cache_data = true := hmem (t, k) (List.mem_cons_self _ _)
        set s2 : CacheState :=
          { CacheManager.remove_entry ctx k s with
            evictions := (CacheManager.remove_entry ctx k s).evictions + 1 } with hs2
        have hs2d : s2.cache_data = alErase k s.cache_data := by
          rw [hs2]
          simpa using remove_entry_cache_data_of_contains ctx k s hck
        have hs2e : s2.evictions = s.evictions + 1 := by
          rw [hs2]
          simpa using remove_entry_evictions ctx k s
        have hlen1 : (alErase k s.cache_data).length + 1 = s.cache_data.length :=
          length_alErase_of_contains hknd hck
        have hnd' : (rest.map Prod.snd).Nodup := (List.nodup_cons.mp (by simpa using hnd)).2
        have hkni : k ∉ rest.map Prod.snd := (List.nodup_cons.mp (by simpa using hnd)).1
        have hmem' : ∀ tk ∈ rest, alContains tk.2 s2.cache_data = true := by
          intro tk htk
          have hne : tk.2 ≠ k := by
            intro he
            exact hkni (he ▸ List.mem_map_of_mem Prod.snd htk)
          rw [hs2d]
          unfold alContains
          rw [alLookup_alErase_ne hne]
          exact hmem tk (List.mem_cons_of_mem _ htk)
        have hknd' : keysNodup s2.cache_data := by
          rw [hs2d]
          exact keysNodup_alErase k hknd
        obtain ⟨hA, hB, hC⟩ := ih s2 hnd' hmem' hknd'
        rw [hs2d] at hB hC
        refine ⟨?_, by omega, by omega⟩
        rcases hA with h | h
        · exact Or.inl h
        · rw [hs2d] at h
          right
          simp only [List.length_cons]
          omega

theorem evictLoop_subset (ctx : CacheCtx) :
    ∀ (ks : List (ℚ × String)) (s : CacheState) (x : String × CacheEntry),
    x ∈ (CacheManager.evictLoop ctx ks s).cache_data → x ∈ s.cache_data := by
  intro ks
  induction ks with
  | nil =>
      intro s x hx
      simpa [CacheManager.evictLoop] using hx
  | cons tk rest ih =>
      intro s x hx
      obtain ⟨t, k⟩ := tk
      simp only [CacheManager.evictLoop] at hx
      split at hx
      · exact hx
      · have hmem := ih _ x hx
        cases hc : alContains k s.cache_data
        · simpa [CacheManager.remove_entry, hc] using hmem
        · have h2 : x ∈ alErase k s.cache_data := by
            simpa [CacheManager.remove_entry, hc] using hmem
          exact mem_of_mem_alErase h2

theorem evictLoop_order (ctx : CacheCtx) :
    ∀ (ks : List (ℚ × String)) (s : CacheState),
    (ks.map Prod.snd).Nodup →
    (∀ tk ∈ ks, alContains tk.2 s.cache_data = true) →
    keysNodup s.cache_data →
    (∀ kv ∈ s.cache_data, ((kv : String × CacheEntry).2.timestamp, kv.1) ∈ ks) →
    List.Pairwise (fun a b => a.1 ≤ b.1) ks →
    ∀ p ∈ s.cache_data,
      alContains p.1 (CacheManager.evictLoop ctx ks s).cache_data = false →
      ∀ q ∈ (CacheManager.evictLoop ctx ks s).cache_data,
        (p : String × CacheEntry).2.timestamp ≤ q.2.timestamp := by
  intro ks
  induction ks with
  | nil =>
      intro s _ _ _ _ _ p hp hpc q _
      rw [show CacheManager.evictLoop ctx [] s = s from rfl] at hpc
      exact absurd (alContains_of_mem hp) (by rw [hpc]; exact Bool.false_ne_true)
  | cons tk rest ih =>
      intro s hnd hmem hknd hinv hsort p hp hpc q hq
      obtain ⟨t, k⟩ := tk
      by_cases hcond : (s.size_bytes : ℚ) ≤ targetBytes ctx
      · rw [show CacheManager.evictLoop ctx ((t, k) :: rest) s = s from by
            simp [CacheManager.evictLoop, hcond]] at hpc
        exact absurd (alContains_of_mem hp) (by rw [hpc]; exact Bool.false_ne_true)
      · have hck : alContains k s.cache_data = true := hmem (t, k) (List.mem_cons_self _ _)
        set s2 : CacheState :=
          { CacheManager.remove_entry ctx k s with
            evictions := (CacheManager.remove_entry ctx k s).evictions + 1 } with hs2
        have hstep : CacheManager.evictLoop ctx ((t, k) :: rest) s
            = CacheManager.evictLoop ctx rest s2 := by
          simp only [CacheManager.evictLoop]
          rw [if_neg hcond]
        rw [hstep] at hpc hq
        have hs2d : s2.cache_data = alErase k s.cache_data := by
          rw [hs2]
          simpa using remove_entry_cache_data_of_contains ctx k s hck
        have hnd' : (rest.map Prod.snd).Nodup := (List.nodup_cons.mp (by simpa using hnd)).2
        have hkni : k ∉ rest.map Prod.snd := (List.nodup_cons.mp (by simpa using hnd)).1
        have hmem' : ∀ tk ∈ rest, alContains tk.2 s2.cache_data = true := by
          intro tk htk
          have hne : tk.2 ≠ k := by
            intro he
            exact hkni (he ▸ List.mem_map_of_mem Prod.snd htk)
          rw [hs2d]
          unfold alContains
          rw [alLookup_alErase_ne hne]
          exact hmem tk (List.mem_cons_of_mem _ htk)
        have hknd' : keysNodup s2.cache_data := by
          rw [hs2d]
          exact keysNodup_alErase k hknd
        have hinv' : ∀ kv ∈ s2.cache_data,
            ((kv : String × CacheEntry).2.timestamp, kv.1) ∈ rest := by
          intro kv hkv
          rw [hs2d] at hkv
          have hks : kv ∈ s.cache_data := mem_of_mem_alErase hkv
          have hne : kv.1 ≠ k := fst_ne_of_mem_alErase hkv
          rcases List.mem_cons.mp (hinv kv hks) with heq | hmem2
          · exact absurd (congrArg Prod.snd heq) hne
          · exact hmem2
      -- two cases on whether p is the entry removed at this step
        by_cases hpk : p.1 = k
        · have hq2 : q ∈ s2.cache_data := evictLoop_subset ctx rest s2 q hq
          have hq3 : q ∈ alErase k s.cache_data := hs2d ▸ hq2
          have hqs : q ∈ s.cache_data := mem_of_mem_alErase hq3
          have hqk : q.1 ≠ k := fst_ne_of_mem_alErase hq3
          have hts : p.2.timestamp = t := by
            rcases List.mem_cons.mp (hinv p hp) with heq | hmem2
            · exact congrArg Prod.fst heq
            · exact absurd (hpk ▸ List.mem_map_of_mem Prod.snd hmem2) hkni
          have hqrest : ((q : String × CacheEntry).2.timestamp, q.1) ∈ rest := by
            rcases List.mem_cons.mp (hinv q hqs) with heq | h
            · exact absurd (congrArg Prod.snd heq) hqk
            · exact h
          have hle : t ≤ q.2.timestamp :=
            (List.pairwise_cons.mp hsort).1 (q.2.timestamp, q.1) hqrest
          rw [hts]
          exact hle
        · have hp2 : p ∈ s2.cache_data := by
            rw [hs2d]
            exact List.mem_filter.mpr ⟨hp, by simp [hpk]⟩
          exact ih s2 hnd' hmem' hknd' hinv' (List.pairwise_cons.mp hsort).2 p hp2 hpc q hq

theorem entriesByAge_perm (s : CacheState) :
    (entriesByAge s).Perm (s.cache_data.map (fun kv => (kv.2.timestamp, kv.1))) :=
  List.mergeSort_perm _ _

theorem entriesByAge_snd_perm (s : CacheState) :
    ((entriesByAge s).map Prod.snd).Perm (s.cache_data.map Prod.fst) := by
  have h := (entriesByAge_perm s).map Prod.snd
  simpa [List.map_map, Function.comp] using h

theorem entriesByAge_sorted (s : CacheState) :
    List.Pairwise (fun a b => a.1 ≤ b.1) (entriesByAge s) := by
  have h := @List.sorted_mergeSort (ℚ × String)
    (fun a b => decide (a.1 ≤ b.1))
    (fun a b c hab hbc => by
      simp only [decide_eq_true_eq] at hab hbc ⊢
      exact le_trans hab hbc)
    (fun a b => by simp [le_total])
    (s.cache_data.map (fun kv => (kv.2.timestamp, kv.1)))
  exact h.imp (fun hab => by simpa using hab)

/-- Claim C5: when a `set` would push the accounted byte size past the
budget, eviction runs before the insertion; eviction removes entries
oldest-write-first until the accounted size reaches 80% of the budget or
the store is empty, and the eviction counter grows by exactly the number of
entries removed. -/
theorem C5_eviction_runs_before_insert_oldest_first (ctx : CacheCtx) (now : ℚ)
    (phone cc : String) (results : List (String × ResultDict)) (persistOk : Bool)
    (s : CacheState) (hnd : keysNodup s.cache_data)
    (hover : (s.size_bytes : ℚ) + (ctx.szIndent (mkCacheEntry now phone cc results) : ℚ)
        > maxBytes ctx) :
    CacheManager.set ctx now phone cc results persistOk s
      = CacheManager.setStorePhase ctx phone cc (mkCacheEntry now phone cc results) persistOk
          (CacheManager.evict_old_entries ctx s)
    ∧ (((CacheManager.evict_old_entries ctx s).size_bytes : ℚ) ≤ targetBytes ctx
        ∨ (CacheManager.evict_old_entries ctx s).cache_data = [])
    ∧ (CacheManager.evict_old_entries ctx s).evictions
        = s.evictions
          + (s.cache_data.length - (CacheManager.evict_old_entries ctx s).cache_data.length)
    ∧ ∀ p ∈ s.cache_data,
        alContains p.1 (CacheManager.evict_old_entries ctx s).cache_data = false →
        ∀ q ∈ (CacheManager.evict_old_entries ctx s).cache_data,
          (p : String × CacheEntry).2.timestamp ≤ q.2.timestamp := by
  have h1 : CacheManager.set ctx now phone cc results persistOk s
      = CacheManager.setStorePhase ctx phone cc (mkCacheEntry now phone cc results) persistOk
          (CacheManager.evict_old_entries ctx s) := by
    unfold CacheManager.set CacheManager.setEvictPhase
    rw [if_pos hover]
  by_cases hemp : s.cache_data.isEmpty
  · have hnil : s.cache_data = [] := by simpa using hemp
    have hev : CacheManager.evict_old_entries ctx s = s := by
      simp [CacheManager.evict_old_entries, hemp]
    refine ⟨h1, Or.inr (by rw [hev, hnil]), by rw [hev]; omega, ?_⟩
    intro p hp
    rw [hnil] at hp
    exact absurd hp (List.not_mem_nil p)
  · have hev : CacheManager.evict_old_entries ctx s
        = CacheManager.evictLoop ctx (entriesByAge s) s := by
      simp [CacheManager.evict_old_entries, hemp]
    have hnd2 : ((entriesByAge s).map Prod.snd).Nodup :=
      (entriesByAge_snd_perm s).nodup_iff.mpr hnd
    have hmemks : ∀ tk ∈ entriesByAge s, alContains tk.2 s.cache_data = true := by
      intro tk htk
      have hmem := (entriesByAge_perm s).mem_iff.mp htk
      obtain ⟨kv, hkv, rfl⟩ := List.mem_map.mp hmem
      exact alContains_of_mem hkv
    have hinv : ∀ kv ∈ s.cache_data,
        ((kv : String × CacheEntry).2.timestamp, kv.1) ∈ entriesByAge s := by
      intro kv hkv
      exact (entriesByAge_perm s).mem_iff.mpr (List.mem_map_of_mem _ hkv)
    have hlenks : (entriesByAge s).length = s.cache_data.length := by
      rw [(entriesByAge_perm s).length_eq]
      simp
    obtain ⟨hA, hB, hC⟩ := evictLoop_spec ctx (entriesByAge s) s hnd2 hmemks hnd
    refine ⟨h1, ?_, by rw [hev]; exact hC, ?_⟩
    · rw [hev]
      rcases hA with h | h
      · exact Or.inl h
      · right
        have : (CacheManager.evictLoop ctx (entriesByAge s) s).cache_data.length = 0 := by
          omega
        exact List.length_eq_zero.mp this
    · rw [hev]
      exact evictLoop_order ctx (entriesByAge s) s hnd2 hmemks hnd hinv
        (entriesByAge_sorted s) 

/-- Witness for C5: a 1-byte-budget cache holding two entries (2 accounted
bytes); inserting a third triggers eviction. -/
theorem C5_eviction_runs_before_insert_oldest_first_witness :
    CacheManager.set ctxC5 2 "633333333" "33" [] true stateC5
      = CacheManager.setStorePhase ctxC5 "633333333" "33" (mkCacheEntry 2 "633333333" "33" []) true
          (CacheManager.evict_old_entries ctxC5 stateC5)
    ∧ (((CacheManager.evict_old_entries ctxC5 stateC5).size_bytes : ℚ) ≤ targetBytes ctxC5
        ∨ (CacheManager.evict_old_entries ctxC5 stateC5).cache_data = [])
    ∧ (CacheManager.evict_old_entries ctxC5 stateC5).evictions
        = stateC5.evictions
          + (stateC5.cache_data.length - (CacheManager.evict_old_entries ctxC5 stateC5).cache_data.length)
    ∧ ∀ p ∈ stateC5.cache_data,
        alContains p.1 (CacheManager.evict_old_entries ctxC5 stateC5).cache_data = false →
        ∀ q ∈ (CacheManager.evict_old_entries ctxC5 stateC5).cache_data,
          (p : String × CacheEntry).2.timestamp ≤ q.2.timestamp :=
  C5_eviction_runs_before_insert_oldest_first ctxC5 2 "633333333" "33" [] true stateC5
    (by simp [keysNodup, stateC5])
    (by norm_num [stateC5, ctxC5, maxBytes, mkCacheEntry])

/-! ## Claim C1: one result per requested platform -/

theorem mkPhoneCheckResponse_counts (request : PhoneCheckRequest)
    (results : List PhoneCheckResult) (t : ℚ) :
    (mkPhoneCheckResponse request results t).successful_checks
      + (mkPhoneCheckResponse request results t).failed_checks = results.length := by
  have := @List.countP_le_length _ PhoneCheckResult.is_successful results
  simp [mkPhoneCheckResponse]
  omega

/-- A `get` that finds a fresh entry: hit, attach the freshness score,
return the entry. -/
theorem get_hit (ctx : CacheCtx) (now : ℚ) (phone cc : String) (s : CacheState)
    (e : CacheEntry) (hl : alLookup (cacheKey phone cc) s.cache_data = some e)
    (hfr : ¬ calculate_freshness_score ctx.expire_after now e.timestamp ≤ 0) :
    CacheManager.get ctx now phone cc s
      = (some ({ e with freshness_score := some (calculate_freshness_score ctx.expire_after now e.timestamp) },
            calculate_freshness_score ctx.expire_after now e.timestamp),
         { s with hits := s.hits + 1,
                  cache_data := alInsert (cacheKey phone cc) { e with freshness_score := some (calculate_freshness_score ctx.expire_after now e.timestamp) } s.cache_data }) := by
  simp only [CacheManager.get]
  rw [hl]
  simp [hfr]

theorem get_some_inv (ctx : CacheCtx) (now : ℚ) (phone cc : String) (s : CacheState)
    {e : CacheEntry} {fr : ℚ}
    (h : (CacheManager.get ctx now phone cc s).1 = some (e, fr)) :
    ∃ e0, alLookup (cacheKey phone cc) s.cache_data = some e0
      ∧ e.results = e0.results := by
  cases hl : alLookup (cacheKey phone cc) s.cache_data with
  | none =>
      rw [get_of_lookup_none ctx now phone cc s hl] at h
      exact absurd h (by simp)
  | some e0 =>
      refine ⟨e0, rfl, ?_⟩
      by_cases hfr : calculate_freshness_score ctx.expire_after now e0.timestamp ≤ 0
      · have hres : (CacheManager.get ctx now phone cc s).1 = none := by
          simp only [CacheManager.get]
          rw [hl]
          simp [hfr]
        rw [hres] at h
        exact absurd h (by simp)
      · rw [get_hit ctx now phone cc s e0 hl hfr] at h
        simp only [Option.some.injEq, Prod.mk.injEq] at h
        rw [← h.1]

theorem from_dict_platform {d : ResultDict} {r : PhoneCheckResult}
    (h : PhoneCheckResult.from_dict d = some r) : r.platform = d.platform := by
  unfold PhoneCheckResult.from_dict at h
  cases hv : VerificationStatus.ofValue d.status with
  | none => rw [hv] at h; exact absurd h (by simp)
  | some st =>
      rw [hv] at h
      simp only [Option.some.injEq] at h
      rw [← h]
      rfl

theorem checkOne_platform {checkers : String → Option AdapterOutcome}
    (hfaith : ∀ p r, checkers p = some (AdapterOutcome.ok r) → r.platform = p)
    (p : String) : (checkOne checkers p).platform = p := by
  unfold checkOne
  cases h : checkers p with
  | none => rfl
  | some o =>
      cases o with
      | ok r => exact hfaith p r h
      | err e => rfl

theorem consultFold_spec (req : List String) (fr : ℚ) :
    ∀ (entries : List (String × ResultDict)) (acc : List PhoneCheckResult)
      (tc : List String) (out : List PhoneCheckResult × List String),
    (entries.map Prod.fst).Nodup →
    (∀ x ∈ entries, (x : String × ResultDict).2.platform = x.1) →
    (∀ p ∈ entries.map Prod.fst, p ∈ req → p ∈ tc) →
    consultFold req fr entries (acc, tc) = some out →
    out.1.length + out.2.length = acc.length + tc.length
    ∧ (out.1.map (fun r => r.platform) ++ out.2).Perm
        (acc.map (fun r => r.platform) ++ tc) := by
  intro entries
  induction entries with
  | nil =>
      intro acc tc out _ _ _ heq
      simp only [consultFold, Option.some.injEq] at heq
      rw [← heq]
      exact ⟨rfl, List.Perm.refl _⟩
  | cons x rest ih =>
      obtain ⟨p, rd⟩ := x
      intro acc tc out hnd hpl hmem heq
      have hnd' : (rest.map Prod.fst).Nodup :=
        (List.nodup_cons.mp (by simpa using hnd)).2
      have hpni : p ∉ rest.map Prod.fst :=
        (List.nodup_cons.mp (by simpa using hnd)).1
      have hpl' : ∀ x ∈ rest, (x : String × ResultDict).2.platform = x.1 :=
        fun x hx => hpl x (List.mem_cons_of_mem _ hx)
      simp only [consultFold] at heq
      by_cases hp : p ∈ req
      · rw [if_pos hp] at heq
        cases hfd : PhoneCheckResult.from_dict rd with
        | none => rw [hfd] at heq; exact absurd heq (by simp)
        | some r =>
            rw [hfd] at heq
            have hptc : p ∈ tc := hmem p (by simp) hp
            have hmem' : ∀ q ∈ rest.map Prod.fst, q ∈ req → q ∈ tc.erase p := by
              intro q hq hqr
              have hqp : q ≠ p := fun he => hpni (he ▸ hq)
              exact (List.mem_erase_of_ne hqp).mpr (hmem q (by simp [hq]) hqr)
            obtain ⟨hL, hP⟩ := ih (acc ++ [tagCached fr r]) (tc.erase p) out hnd' hpl' hmem' heq
            have hrdp : rd.platform = p := hpl (p, rd) (by simp)
            have hrp : (tagCached fr r).platform = p := by
              show r.platform = p
              rw [from_dict_platform hfd, hrdp]
            have hel : (tc.erase p).length = tc.length - 1 :=
              List.length_erase_of_mem hptc
            have hpos : 0 < tc.length := List.length_pos.mpr (List.ne_nil_of_mem hptc)
            constructor
            · rw [List.length_append] at hL
              rw [hel] at hL
              simp only [List.length_singleton] at hL
              omega
            · have hmap : (acc ++ [tagCached fr r]).map (fun r => r.platform)
                  = acc.map (fun r => r.platform) ++ [p] := by
                simp [hrp]
              rw [hmap] at hP
              refine hP.trans ?_
              rw [List.append_assoc]
              exact List.Perm.append_left _ (List.perm_cons_erase hptc).symm
      · rw [if_neg hp] at heq
        have hmem' : ∀ q ∈ rest.map Prod.fst, q ∈ req → q ∈ tc :=
          fun q hq hqr => hmem q (by simp [hq]) hqr
        exact ih acc tc out hnd' hpl' hmem' heq

theorem consultPhase_no_cache (ctx : CacheCtx) (use_cache : Bool) (now : ℚ)
    (phone cc : String) (platforms : List String) (force_refresh : Bool)
    (s : CacheState) (hb : (use_cache && !force_refresh) = false) :
    consultPhase ctx use_cache now phone cc platforms force_refresh s
      = some (([], platforms), s) := by
  unfold consultPhase
  rw [hb, if_neg Bool.false_ne_true]

theorem consultPhase_get_none (ctx : CacheCtx) (use_cache : Bool) (now : ℚ)
    (phone cc : String) (platforms : List String) (force_refresh : Bool)
    {s s1 : CacheState} (hb : (use_cache && !force_refresh) = true)
    (hg : CacheManager.get ctx now phone cc s = (none, s1)) :
    consultPhase ctx use_cache now phone cc platforms force_refresh s
      = some (([], platforms), s1) := by
  unfold consultPhase
  rw [hb, if_pos rfl, hg]

theorem consultPhase_get_some (ctx : CacheCtx) (use_cache : Bool) (now : ℚ)
    (phone cc : String) (platforms : List String) (force_refresh : Bool)
    {s s1 : CacheState} {e : CacheEntry} {fr : ℚ}
    (hb : (use_cache && !force_refresh) = true)
    (hg : CacheManager.get ctx now phone cc s = (some (e, fr), s1)) :
    consultPhase ctx use_cache now phone cc platforms force_refresh s
      = (match consultFold platforms fr e.results ([], platforms) with
         | none => none
         | some res => some (res, s1)) := by
  unfold consultPhase
  rw [hb, if_pos rfl, hg]

theorem consultPhase_spec (ctx : CacheCtx) (use_cache : Bool) (now : ℚ)
    (phone cc : String) (platforms : List String) (force_refresh : Bool)
    (s : CacheState) (out : (List PhoneCheckResult × List String) × CacheState)
    (hkeys : ∀ e, alLookup (cacheKey phone cc) s.cache_data = some e →
        (e.results.map Prod.fst).Nodup
        ∧ ∀ x ∈ e.results, (x : String × ResultDict).2.platform = x.1)
    (h : consultPhase ctx use_cache now phone cc platforms force_refresh s = some out) :
    out.1.1.length + out.1.2.length = platforms.length
    ∧ (out.1.1.map (fun r => r.platform) ++ out.1.2).Perm platforms := by
  cases hb : use_cache && !force_refresh with
  | false =>
      rw [consultPhase_no_cache ctx use_cache now phone cc platforms force_refresh s hb] at h
      simp only [Option.some.injEq] at h
      rw [← h]
      exact ⟨by simp, by simp⟩
  | true =>
      cases hg : CacheManager.get ctx now phone cc s with
      | mk opt s1 =>
          cases opt with
          | none =>
              rw [consultPhase_get_none ctx use_cache now phone cc platforms force_refresh hb hg] at h
              simp only [Option.some.injEq] at h
              rw [← h]
              exact ⟨by simp, by simp⟩
          | some pr =>
              obtain ⟨e, fr⟩ := pr
              rw [consultPhase_get_some ctx use_cache now phone cc platforms force_refresh hb hg] at h
              cases hcf : consultFold platforms fr e.results ([], platforms) with
              | none => rw [hcf] at h; exact absurd h (by simp)
              | some res =>
                  rw [hcf] at h
                  simp only [Option.some.injEq] at h
                  have hfst : (CacheManager.get ctx now phone cc s).1 = some (e, fr) := by
                    rw [hg]
                  obtain ⟨e0, hl0, hres⟩ := get_some_inv ctx now phone cc s hfst
                  obtain ⟨hnd0, hpl0⟩ := hkeys e0 hl0
                  rw [← hres] at hnd0 hpl0
                  obtain ⟨hL, hP⟩ := consultFold_spec platforms fr e.results [] platforms res
                    hnd0 hpl0 (fun p _ hp => hp) hcf
                  rw [← h]
                  simp only [List.length_nil, List.map_nil, List.nil_append, zero_add] at hL hP
                  exact ⟨hL, hP⟩

/-- The branch equation of `check_number` once the consult phase is known. -/
theorem check_number_after_consult (ctx : CacheCtx)
    (checkers : String → Option AdapterOutcome) (use_cache : Bool) (now : ℚ)
    (phone cc : String) (platforms : List String) (force_refresh persistOk : Bool)
    (s s1 : CacheState) (cached : List PhoneCheckResult) (tc : List String)
    (hcp : consultPhase ctx use_cache now phone cc platforms force_refresh s
        = some ((cached, tc), s1)) :
    check_number ctx checkers use_cache now phone cc platforms force_refresh persistOk s
      = if tc.isEmpty && !cached.isEmpty then
          some (mkPhoneCheckResponse
            { phone := phone, country_code := cc, platforms := platforms,
              force_refresh := force_refresh } cached 0, s1, [])
        else
          some (mkPhoneCheckResponse
            { phone := phone, country_code := cc, platforms := platforms,
              force_refresh := force_refresh } (cached ++ perform_checks checkers tc) 0,
            (if use_cache && !(perform_checks checkers tc).isEmpty then
              CacheManager.set ctx now phone cc (resultsDict (perform_checks checkers tc))
                persistOk s1
             else s1),
            tc) := by
  unfold check_number
  rw [hcp]

/-- Claim C1: for every `check_number` call over N requested platforms
that returns (rather than raising on a corrupt cached status), the response
holds exactly N results whose platforms are a permutation of the requested
ones — adapter failures become ERROR placeholders, never a shorter list —
and `successful_checks + failed_checks = N`. The cache-entry hypothesis
says stored dicts are well-formed; adapters are assumed to stamp their own
platform on results they return. -/
theorem C1_check_number_one_result_per_platform (ctx : CacheCtx)
    (checkers : String → Option AdapterOutcome) (use_cache : Bool) (now : ℚ)
    (phone cc : String) (platforms : List String) (force_refresh persistOk : Bool)
    (s : CacheState) (resp : PhoneCheckResponse) (s' : CacheState)
    (dispatched : List String)
    (hkeys : ∀ e, alLookup (cacheKey phone cc) s.cache_data = some e →
        (e.results.map Prod.fst).Nodup
        ∧ ∀ x ∈ e.results, (x : String × ResultDict).2.platform = x.1)
    (hfaith : ∀ p r, checkers p = some (AdapterOutcome.ok r) → r.platform = p)
    (h : check_number ctx checkers use_cache now phone cc platforms force_refresh persistOk s
          = some (resp, s', dispatched)) :
    resp.results.length = platforms.length
    ∧ (resp.results.map (fun r => r.platform)).Perm platforms
    ∧ resp.successful_checks + resp.failed_checks = platforms.length := by
  cases hcp : consultPhase ctx use_cache now phone cc platforms force_refresh s with
  | none =>
      unfold check_number at h
      rw [hcp] at h
      exact absurd h (by simp)
  | some out =>
      obtain ⟨⟨cached, tc⟩, s1⟩ := out
      obtain ⟨hL, hP⟩ := consultPhase_spec ctx use_cache now phone cc platforms
        force_refresh s _ hkeys hcp
      simp only at hL hP
      rw [check_number_after_consult ctx checkers use_cache now phone cc platforms
        force_refresh persistOk s s1 cached tc hcp] at h
      have hperf_len : (perform_checks checkers tc).length = tc.length := by
        unfold perform_checks
        simp
      have hperf_map : (perform_checks checkers tc).map (fun r => r.platform) = tc := by
        unfold perform_checks
        rw [List.map_map]
        calc tc.map ((fun r => PhoneCheckResult.platform r) ∘ checkOne checkers)
            = tc.map id := List.map_congr_left (fun p _ => checkOne_platform hfaith p)
          _ = tc := List.map_id tc
      by_cases hsc : (tc.isEmpty && !cached.isEmpty) = true
      · rw [if_pos hsc] at h
        simp only [Option.some.injEq, Prod.mk.injEq] at h
        obtain ⟨h1, _, _⟩ := h
        have htc : tc = [] := by
          have := (Bool.and_eq_true _ _).mp hsc
          simpa using this.1
        rw [htc] at hL hP
        rw [← h1]
        refine ⟨by simpa using hL, by simpa using hP, ?_⟩
        rw [mkPhoneCheckResponse_counts]
        simpa using hL
      · rw [if_neg hsc] at h
        simp only [Option.some.injEq, Prod.mk.injEq] at h
        obtain ⟨h1, _, _⟩ := h
        rw [← h1]
        refine ⟨?_, ?_, ?_⟩
        · show (cached ++ perform_checks checkers tc).length = platforms.length
          rw [List.length_append, hperf_len]
          omega
        · show ((cached ++ perform_checks checkers tc).map (fun r => r.platform)).Perm platforms
          rw [List.map_append, hperf_map]
          exact hP
        · rw [mkPhoneCheckResponse_counts]
          rw [List.length_append, hperf_len]
          omega

/-- Witness for C1: two requested platforms with no adapters available and
no cache; both results are ERROR placeholders, the counts add to 2. -/
theorem C1_check_number_one_result_per_platform_witness :
    (mkPhoneCheckResponse
        { phone := "612345678", country_code := "33",
          platforms := ["whatsapp", "telegram"], force_refresh := false }
        (perform_checks (fun _ => none) ["whatsapp", "telegram"]) 0).results.length
      = (["whatsapp", "telegram"] : List String).length
    ∧ ((mkPhoneCheckResponse
        { phone := "612345678", country_code := "33",
          platforms := ["whatsapp", "telegram"], force_refresh := false }
        (perform_checks (fun _ => none) ["whatsapp", "telegram"]) 0).results.map
          (fun r => r.platform)).Perm (["whatsapp", "telegram"] : List String)
    ∧ (mkPhoneCheckResponse
        { phone := "612345678", country_code := "33",
          platforms := ["whatsapp", "telegram"], force_refresh := false }
        (perform_checks (fun _ => none) ["whatsapp", "telegram"]) 0).successful_checks
      + (mkPhoneCheckResponse
        { phone := "612345678", country_code := "33",
          platforms := ["whatsapp", "telegram"], force_refresh := false }
        (perform_checks (fun _ => none) ["whatsapp", "telegram"]) 0).failed_checks
      = (["whatsapp", "telegram"] : List String).length :=
  C1_check_number_one_result_per_platform ctxC5 (fun _ => none) false 0 "612345678" "33"
    ["whatsapp", "telegram"] false true emptyCacheState _ _ _
    (fun e he => absurd he (by simp [emptyCacheState, alLookup]))
    (fun p r hpr => absurd hpr (by simp))
    rfl

/-! ## Claim C8: cache short-circuit and force_refresh -/

theorem alInsert_of_not_contains {β : Type} {k : String} {v : β}
    {l : List (String × β)} (h : alContains k l = false) :
    alInsert k v l = l ++ [(k, v)] := by
  induction l with
  | nil => rfl
  | cons kv rest ih =>
      by_cases hk : kv.1 = k
      · simp [alContains, alLookup, hk] at h
      · have hrest : alContains k rest = false := by
          simpa [alContains, alLookup, hk] using h
        simp [alInsert, hk, ih hrest]

theorem foldl_alInsert_fresh :
    ∀ (rs : List PhoneCheckResult) (acc : List (String × ResultDict)),
    (acc.map Prod.fst ++ rs.map (fun r => r.platform)).Nodup →
    rs.foldl (fun acc r => alInsert r.platform r.to_dict acc) acc
      = acc ++ rs.map (fun r => (r.platform, r.to_dict)) := by
  intro rs
  induction rs with
  | nil => intro acc _; simp
  | cons r rest ih =>
      intro acc hnd
      simp only [List.foldl_cons]
      have hfresh : alContains r.platform acc = false := by
        cases hc : alContains r.platform acc
        · rfl
        · exfalso
          have hmem : r.platform ∈ acc.map Prod.fst := (alContains_iff_mem_keys _ _).mp hc
          have hdisj := (List.nodup_append.mp hnd).2.2
          exact hdisj hmem (by simp)
      rw [alInsert_of_not_contains hfresh]
      rw [ih (acc ++ [(r.platform, r.to_dict)]) ?_]
      · simp
      · simpa [List.append_assoc, List.singleton_append] using hnd

theorem resultsDict_map (rs : List PhoneCheckResult)
    (hnd : (rs.map (fun r => r.platform)).Nodup) :
    resultsDict rs = rs.map (fun r => (r.platform, r.to_dict)) := by
  have := foldl_alInsert_fresh rs [] (by simpa using hnd)
  simpa [resultsDict] using this

theorem from_dict_to_dict_isSome (r : PhoneCheckResult) :
    (PhoneCheckResult.from_dict r.to_dict).isSome := by
  unfold PhoneCheckResult.from_dict PhoneCheckResult.to_dict
  cases r.status <;> simp [VerificationStatus.value, VerificationStatus.ofValue]

theorem consultFold_covers (req : List String) (fr : ℚ) :
    ∀ (entries : List (String × ResultDict)) (ps : List String)
      (acc : List PhoneCheckResult),
    entries.map Prod.fst = ps →
    (∀ p ∈ ps, p ∈ req) →
    (∀ x ∈ entries, (PhoneCheckResult.from_dict (x : String × ResultDict).2).isSome) →
    ∃ acc2, consultFold req fr entries (acc, ps) = some (acc2, [])
      ∧ acc2.length = acc.length + entries.length := by
  intro entries
  induction entries with
  | nil =>
      intro ps acc hk _ _
      have hps : ps = [] := by simpa using hk.symm
      subst hps
      exact ⟨acc, rfl, by simp⟩
  | cons x rest ih =>
      obtain ⟨p, rd⟩ := x
      intro ps acc hk hreq hdec
      have hps : ps = p :: rest.map Prod.fst := by simpa using hk.symm
      subst hps
      simp only [consultFold]
      have hp : p ∈ req := hreq p (by simp)
      rw [if_pos hp]
      obtain ⟨r, hr⟩ := Option.isSome_iff_exists.mp (hdec (p, rd) (by simp))
      rw [hr]
      obtain ⟨acc2, heq, hlen⟩ := ih (rest.map Prod.fst) (acc ++ [tagCached fr r]) rfl
        (fun q hq => hreq q (by simp [hq]))
        (fun x hx => hdec x (by simp [hx]))
      refine ⟨acc2, ?_, ?_⟩
      · rw [List.erase_cons_head]
        exact heq
      · simp at hlen ⊢
        omega

theorem set_lookup_self (ctx : CacheCtx) (now : ℚ) (phone cc : String)
    (results : List (String × ResultDict)) (s : CacheState) :
    alLookup (cacheKey phone cc)
        (CacheManager.set ctx now phone cc results true s).cache_data
      = some (mkCacheEntry now phone cc results) := by
  unfold CacheManager.set
  rw [setStorePhase_persist_cache_data]
  exact alLookup_alInsert_self _ _ _

/-- The cache-miss path of `check_number`: everything is dispatched and the
fresh results are written back as one `set`. -/
theorem cn_cache_miss (ctx : CacheCtx) (checkers : String → Option AdapterOutcome)
    (now : ℚ) (phone cc : String) (platforms : List String) (persistOk : Bool)
    (s : CacheState)
    (habs : alLookup (cacheKey phone cc) s.cache_data = none)
    (hne : platforms.isEmpty = false) :
    check_number ctx checkers true now phone cc platforms false persistOk s
      = some (mkPhoneCheckResponse
          { phone := phone, country_code := cc, platforms := platforms,
            force_refresh := false }
          (perform_checks checkers platforms) 0,
        CacheManager.set ctx now phone cc
          (resultsDict (perform_checks checkers platforms)) persistOk
          { s with misses := s.misses + 1 },
        platforms) := by
  have hg : CacheManager.get ctx now phone cc s
      = (none, { s with misses := s.misses + 1 }) :=
    get_of_lookup_none ctx now phone cc s habs
  have hcp := consultPhase_get_none ctx true now phone cc platforms false (by rfl) hg
  rw [check_number_after_consult ctx checkers true now phone cc platforms false persistOk
    s _ [] platforms hcp]
  have hperf : (perform_checks checkers platforms).isEmpty = false := by
    cases platforms with
    | nil => simp at hne
    | cons a l => rfl
  rw [if_neg (by simp [hne]), if_pos (by simp [hperf])]
  simp

/-- The force-refresh path of `check_number`: the cache is not consulted
and every requested platform is dispatched. -/
theorem cn_force (ctx : CacheCtx) (checkers : String → Option AdapterOutcome)
    (now : ℚ) (phone cc : String) (platforms : List String) (persistOk : Bool)
    (s : CacheState) (hne : platforms.isEmpty = false) :
    check_number ctx checkers true now phone cc platforms true persistOk s
      = some (mkPhoneCheckResponse
          { phone := phone, country_code := cc, platforms := platforms,
            force_refresh := true }
          (perform_checks checkers platforms) 0,
        CacheManager.set ctx now phone cc
          (resultsDict (perform_checks checkers platforms)) persistOk s,
        platforms) := by
  have hcp := consultPhase_no_cache ctx true now phone cc platforms true s (by rfl)
  rw [check_number_after_consult ctx checkers true now phone cc platforms true persistOk
    s _ [] platforms hcp]
  have hperf : (perform_checks checkers platforms).isEmpty = false := by
    cases platforms with
    | nil => simp at hne
    | cons a l => rfl
  rw [if_neg (by simp [hne]), if_pos (by simp [hperf])]
  simp

/-- The full-cache-hit path of `check_number`: when the (fresh) entry's
results cover every requested platform, the response is assembled from the
cache and no platform is dispatched. -/
theorem cn_full_hit (ctx : CacheCtx) (checkers : String → Option AdapterOutcome)
    (now : ℚ) (phone cc : String) (platforms : List String) (persistOk : Bool)
    (s : CacheState) (e : CacheEntry)
    (hl : alLookup (cacheKey phone cc) s.cache_data = some e)
    (hfr : ¬ calculate_freshness_score ctx.expire_after now e.timestamp ≤ 0)
    (hkeys : e.results.map Prod.fst = platforms)
    (hdec : ∀ x ∈ e.results, (PhoneCheckResult.from_dict (x : String × ResultDict).2).isSome)
    (hne : platforms.isEmpty = false) :
    ∃ resp s2, check_number ctx checkers true now phone cc platforms false persistOk s
      = some (resp, s2, []) := by
  have hg := get_hit ctx now phone cc s e hl hfr
  have hcp0 := consultPhase_get_some ctx true now phone cc platforms false (by rfl) hg
  obtain ⟨acc, hfold, hlen⟩ := consultFold_covers platforms
    (calculate_freshness_score ctx.expire_after now e.timestamp) e.results platforms []
    hkeys (fun p hp => hp) hdec
  rw [hfold] at hcp0
  have hlp : 0 < platforms.length := by
    cases platforms with
    | nil => simp at hne
    | cons a l => simp
  have haccl : acc.length = platforms.length := by
    have he : e.results.length = platforms.length := by
      rw [← hkeys]
      simp
    simp at hlen
    omega
  have hacc : acc.isEmpty = false := by
    cases acc with
    | nil => simp at haccl; omega
    | cons a l => rfl
  rw [check_number_after_consult ctx checkers true now phone cc platforms false persistOk
    s _ acc [] hcp0]
  rw [if_pos (by simp [hacc])]
  exact ⟨_, _, rfl⟩

/-- Claim C8: after a first `check_number` populates the cache for all
requested platforms, a second call with `force_refresh = false` dispatches
no platform to adapters (pure cache short-circuit), while a call with
`force_refresh = true` dispatches every requested platform again. -/
theorem C8_cache_short_circuit_and_force_refresh (ctx : CacheCtx)
    (checkers : String → Option AdapterOutcome) (now1 now2 : ℚ)
    (phone cc : String) (platforms : List String) (s0 : CacheState)
    (hne : platforms ≠ []) (hnd : platforms.Nodup)
    (habs : alLookup (cacheKey phone cc) s0.cache_data = none)
    (hfaith : ∀ p r, checkers p = some (AdapterOutcome.ok r) → r.platform = p)
    (hexp : 0 < ctx.expire_after) (htime : now2 - now1 < ctx.expire_after) :
    ∃ resp1 s1,
      check_number ctx checkers true now1 phone cc platforms false true s0
        = some (resp1, s1, platforms)
      ∧ (∃ resp2 s2, check_number ctx checkers true now2 phone cc platforms false true s1
          = some (resp2, s2, []))
      ∧ (∃ resp3 s3, check_number ctx checkers true now2 phone cc platforms true true s1
          = some (resp3, s3, platforms)) := by
  have hne' : platforms.isEmpty = false := by
    cases platforms with
    | nil => exact absurd rfl hne
    | cons a l => rfl
  have hperf_map : (perform_checks checkers platforms).map (fun r => r.platform)
      = platforms := by
    unfold perform_checks
    rw [List.map_map]
    calc platforms.map ((fun r => PhoneCheckResult.platform r) ∘ checkOne checkers)
        = platforms.map id := List.map_congr_left (fun p _ => checkOne_platform hfaith p)
      _ = platforms := List.map_id platforms
  have hstep1 := cn_cache_miss ctx checkers now1 phone cc platforms true s0 habs hne'
  set new := perform_checks checkers platforms with hnew
  set s1 := CacheManager.set ctx now1 phone cc (resultsDict new) true
    { s0 with misses := s0.misses + 1 } with hs1
  have hrd : resultsDict new = new.map (fun r => (r.platform, r.to_dict)) :=
    resultsDict_map new (by rw [hperf_map]; exact hnd)
  have hlook1 : alLookup (cacheKey phone cc) s1.cache_data
      = some (mkCacheEntry now1 phone cc (resultsDict new)) := by
    rw [hs1]
    exact set_lookup_self ctx now1 phone cc (resultsDict new) _
  have hts : (mkCacheEntry now1 phone cc (resultsDict new)).timestamp = now1 := rfl
  have hfr2 : ¬ calculate_freshness_score ctx.expire_after now2
      (mkCacheEntry now1 phone cc (resultsDict new)).timestamp ≤ 0 := by
    rw [hts]
    unfold calculate_freshness_score
    have hlt : (now2 - now1) / ctx.expire_after < 1 := (div_lt_one hexp).mpr htime
    have hpos : (0:ℚ) < 1 - (now2 - now1) / ctx.expire_after := by linarith
    exact not_le.mpr (lt_of_lt_of_le hpos (le_max_right 0 _))
  have hkeys2 : (mkCacheEntry now1 phone cc (resultsDict new)).results.map Prod.fst
      = platforms := by
    show (resultsDict new).map Prod.fst = platforms
    rw [hrd, List.map_map]
    calc new.map (Prod.fst ∘ fun r => (r.platform, r.to_dict))
        = new.map (fun r => r.platform) := rfl
      _ = platforms := hperf_map
  have hdec2 : ∀ x ∈ (mkCacheEntry now1 phone cc (resultsDict new)).results,
      (PhoneCheckResult.from_dict (x : String × ResultDict).2).isSome := by
    intro x hx
    have hx2 : x ∈ new.map (fun r => (r.platform, r.to_dict)) := by
      rw [← hrd]
      exact hx
    obtain ⟨r, _, rfl⟩ := List.mem_map.mp hx2
    exact from_dict_to_dict_isSome r
  refine ⟨_, s1, hstep1, ?_, ?_⟩
  · exact cn_full_hit ctx checkers now2 phone cc platforms true s1
      (mkCacheEntry now1 phone cc (resultsDict new)) hlook1 hfr2 hkeys2 hdec2 hne'
  · exact ⟨_, _, cn_force ctx checkers now2 phone cc platforms true s1 hne'⟩

/-- Witness for C8: one platform with no adapter available, empty cache;
the first call dispatches it, the second short-circuits, force refresh
dispatches again. -/
theorem C8_cache_short_circuit_and_force_refresh_witness :
    ∃ resp1 s1,
      check_number ctxC5 (fun _ => none) true 0 "612345678" "33" ["whatsapp"] false true
          emptyCacheState
        = some (resp1, s1, ["whatsapp"])
      ∧ (∃ resp2 s2, check_number ctxC5 (fun _ => none) true 1 "612345678" "33" ["whatsapp"]
            false true s1 = some (resp2, s2, []))
      ∧ (∃ resp3 s3, check_number ctxC5 (fun _ => none) true 1 "612345678" "33" ["whatsapp"]
            true true s1 = some (resp3, s3, ["whatsapp"])) :=
  C8_cache_short_circuit_and_force_refresh ctxC5 (fun _ => none) 0 1 "612345678" "33"
    ["whatsapp"] emptyCacheState (by simp) (by simp)
    (by simp [emptyCacheState, alLookup])
    (fun p r hpr => absurd hpr (by simp))
    (by norm_num [ctxC5]) (by norm_num [ctxC5])
